import Mathlib

/-!
Verification development for the FootballData pipeline
(process_comprehensive_data.py and create_weekly_aggregation.py).

Strings are modelled as lists of characters; the Python regular
expressions used by the pipeline are hand-compiled into dedicated
scanner functions with Python `re.search` semantics (leftmost match
position wins; greedy / lazy sub-expressions backtrack exactly where
the concrete patterns allow it).  All text handled by the pipeline is
ASCII, so `str.lower`, `str.upper` and the character classes are
modelled on ASCII code points.
-/

namespace FootballData

/-- ASCII lower-casing of one character, mirroring Python str.lower on ASCII. -/
def lowChar (c : Char) : Char :=
  if 65 ≤ c.toNat ∧ c.toNat ≤ 90 then Char.ofNat (c.toNat + 32) else c

/-- Lower-case a whole character list. -/
def lowL (s : List Char) : List Char := s.map lowChar

/-- Python regex whitespace class \s (ASCII part: space, tab, LF, VT, FF, CR). -/
def isWs (c : Char) : Bool :=
  decide (c.toNat = 32) || decide (c.toNat = 9) || decide (c.toNat = 10) ||
  decide (c.toNat = 11) || decide (c.toNat = 12) || decide (c.toNat = 13)

/-- ASCII letter ([A-Za-z]); with re.IGNORECASE the class [A-Z] also matches these. -/
def isAlphaA (c : Char) : Bool :=
  decide (65 ≤ c.toNat ∧ c.toNat ≤ 90) || decide (97 ≤ c.toNat ∧ c.toNat ≤ 122)

/-- ASCII digit ([0-9], regex \d on ASCII). -/
def isDigitA (c : Char) : Bool := decide (48 ≤ c.toNat ∧ c.toNat ≤ 57)

/-- ASCII upper-case letter ([A-Z] without IGNORECASE). -/
def isUpperA (c : Char) : Bool := decide (65 ≤ c.toNat ∧ c.toNat ≤ 90)

/-- Character class [A-Za-z'\-] used inside the name capture groups. -/
def isSurChar (c : Char) : Bool := isAlphaA c || decide (c.toNat = 39) || decide (c.toNat = 45)

/-- Case-sensitive substring test, Python `kw in s`. -/
def hasSub (kw : List Char) : List Char → Bool
  | [] => kw.isEmpty
  | c :: t => kw.isPrefixOf (c :: t) || hasSub kw t

/-- Strip a case-insensitively matched literal keyword from the front of `s`. -/
def stripKwCI : List Char → List Char → Option (List Char)
  | [], s => some s
  | _ :: _, [] => none
  | k :: ks, c :: cs => if lowChar c = lowChar k then stripKwCI ks cs else none

/-- Generic scanner: try an anchored attempt at every position left to right
(including the empty suffix), returning the first success.  This is exactly
re.search position enumeration. -/
def scanFor (att : List Char → Option α) : List Char → Option α
  | [] => att []
  | c :: t =>
    match att (c :: t) with
    | some g => some g
    | none => scanFor att t

/-- Keyword lists used by the pipeline's regular expressions. -/
def passL : List Char := "pass".data

def toL : List Char := "to".data

def touchdownL : List Char := "touchdown".data

def yardL : List Char := "yard".data

def runL : List Char := "run".data

def rushL : List Char := "rush".data

def interceptL : List Char := "intercept".data

def interceptedL : List Char := "intercepted".data

def byL : List Char := "by".data

def fumbleL : List Char := "fumble".data

/-- Backtracking loop for a name group followed by a lazy gap and a keyword
(the regex tail `([...]+).*?kw`): the greedy surname part gives characters
back from the right until the keyword occurs in the remainder.  `surRev` is
the reversed surname candidate; the longest candidate is tried first. -/
def shrinkSur (kwLow : List Char) (pre : List Char) : List Char → List Char → Option (List Char)
  | [], _ => none
  | c :: rs, rest =>
    if hasSub kwLow (lowL rest) then some (pre ++ (c :: rs).reverse)
    else shrinkSur kwLow pre rs (c :: rest)

/-- Anchored match of the capture group ([A-Z]\.\s*[A-Za-z'\-]+) under
IGNORECASE, returning the captured text and the rest of the input.
Greedy sub-parts need no backtracking here because the following context
(if any) starts with a character class disjoint from the group classes. -/
def nameAt (s : List Char) : Option (List Char × List Char) :=
  match s with
  | c :: d :: r =>
    if d = '.' ∧ isAlphaA c then
      let sp := r.takeWhile isWs
      let r1 := r.dropWhile isWs
      let sur := r1.takeWhile isSurChar
      let r2 := r1.dropWhile isSurChar
      if sur.isEmpty then none else some (c :: '.' :: (sp ++ sur), r2)
    else none
  | _ => none

/-- Anchored match of ([A-Z]\.\s*[A-Za-z'\-]+).*?kw under IGNORECASE:
the greedy surname backtracks against the lazy gap before `kw`. -/
def nameKwAt (kwLow : List Char) (s : List Char) : Option (List Char) :=
  match s with
  | c :: d :: r =>
    if d = '.' ∧ isAlphaA c then
      let sp := r.takeWhile isWs
      let r1 := r.dropWhile isWs
      let sur := r1.takeWhile isSurChar
      let r2 := r1.dropWhile isSurChar
      shrinkSur kwLow (c :: '.' :: sp) sur.reverse r2
    else none
  | _ => none

/-- Attempt for the tail `to\s+NAME.*?touchdown` used inside the first
touchdown pattern (reached through the lazy gap after "pass"). -/
def tdToAtt (u : List Char) : Option (List Char) :=
  match stripKwCI toL u with
  | none => none
  | some r =>
    let sp := r.takeWhile isWs
    let r1 := r.dropWhile isWs
    if sp.isEmpty then none else nameKwAt touchdownL r1

/-- Anchored attempt for touchdown pattern 1,
r"pass.*?to\s+([A-Z]\.\s*[A-Za-z'\-]+).*?touchdown" (IGNORECASE). -/
def tdP1Att (v : List Char) : Option (List Char) :=
  match stripKwCI passL v with
  | none => none
  | some r => scanFor tdToAtt r

/-- Touchdown pattern 1 search. -/
def tdP1 (s : List Char) : Option (List Char) := scanFor tdP1Att s

/-- Case-insensitive two-keyword sequence test for a regex tail
`.*?k1.*?k2` (succeeds iff some occurrence of k1 is followed by k2). -/
def hasSeqCI (k1 k2 : List Char) (s : List Char) : Bool :=
  (scanFor (fun u =>
    match stripKwCI k1 u with
    | none => none
    | some r => if hasSub k2 (lowL r) then some () else none) s).isSome

/-- Anchored attempt for touchdown pattern 2,
r"([A-Z]\.\s*[A-Za-z'\-]+)\s+\d+\s+yard.*?run.*?touchdown" (IGNORECASE). -/
def tdP2Att (s : List Char) : Option (List Char) :=
  match nameAt s with
  | none => none
  | some (g, r) =>
    let sp1 := r.takeWhile isWs
    let r1 := r.dropWhile isWs
    if sp1.isEmpty then none else
    let ds := r1.takeWhile isDigitA
    let r2 := r1.dropWhile isDigitA
    if ds.isEmpty then none else
    let sp2 := r2.takeWhile isWs
    let r3 := r2.dropWhile isWs
    if sp2.isEmpty then none else
    match stripKwCI yardL r3 with
    | none => none
    | some r4 => if hasSeqCI runL touchdownL r4 then some g else none

/-- Touchdown pattern 2 search. -/
def tdP2 (s : List Char) : Option (List Char) := scanFor tdP2Att s

/-- Touchdown pattern 3 search, r"([A-Z]\.\s*[A-Za-z'\-]+).*?touchdown". -/
def tdP3 (s : List Char) : Option (List Char) := scanFor (nameKwAt touchdownL) s

/-- Attempt for the tail `by\s+NAME` (interception pattern 1, fumble pattern 2). -/
def byNameAtt (u : List Char) : Option (List Char) :=
  match stripKwCI byL u with
  | none => none
  | some r =>
    let sp := r.takeWhile isWs
    let r1 := r.dropWhile isWs
    if sp.isEmpty then none else (nameAt r1).map (fun p => p.1)

/-- Anchored attempt for interception pattern 1. -/
def intP1Att (v : List Char) : Option (List Char) :=
  match stripKwCI interceptedL v with
  | none => none
  | some r => scanFor byNameAtt r

/-- Interception pattern 1 search, r"intercepted.*?by\s+([A-Z]\.\s*[A-Za-z'\-]+)". -/
def intP1 (s : List Char) : Option (List Char) := scanFor intP1Att s

/-- Interception pattern 2 search, r"([A-Z]\.\s*[A-Za-z'\-]+).*?intercept". -/
def intP2 (s : List Char) : Option (List Char) := scanFor (nameKwAt interceptL) s

/-- Fumble pattern 1 search, r"([A-Z]\.\s*[A-Za-z'\-]+).*?fumble". -/
def fumP1 (s : List Char) : Option (List Char) := scanFor (nameKwAt fumbleL) s

/-- Anchored attempt for fumble pattern 2. -/
def fumP2Att (v : List Char) : Option (List Char) :=
  match stripKwCI fumbleL v with
  | none => none
  | some r => scanFor byNameAtt r

/-- Fumble pattern 2 search, r"fumble.*?by\s+([A-Z]\.\s*[A-Za-z'\-]+)". -/
def fumP2 (s : List Char) : Option (List Char) := scanFor fumP2Att s

/-- Python str.strip on the ASCII whitespace handled here. -/
def stripWsL (s : List Char) : List Char :=
  ((s.dropWhile isWs).reverse.dropWhile isWs).reverse

/-- Python re.sub(r'\s+', ' ', s): collapse each whitespace run to one space. -/
def collapseWs (s : List Char) : List Char :=
  s.foldr (fun c acc =>
    if isWs c then (if acc.head? = some ' ' then acc else ' ' :: acc)
    else c :: acc) []

/-- Trim and whitespace-normalise a captured name,
match.group(1).strip() followed by re.sub(r'\s+', ' ', name). -/
def normName (g : List Char) : String := String.mk (collapseWs (stripWsL g))

/-- Try an ordered pattern list, first match wins. -/
def firstHit : List (List Char → Option (List Char)) → List Char → Option (List Char)
  | [], _ => none
  | p :: ps, s =>
    match p s with
    | some g => some g
    | none => firstHit ps s

/-- ComprehensiveDataProcessor.extract_player_from_play_text: ordered
category-specific patterns, first match wins, captured name trimmed and
whitespace-normalised; unknown categories and empty text give no player. -/
def extractPlayerFromPlayText (playText : String) (playType : String) : Option String :=
  if playText = "" then none
  else if playType = "touchdown" then (firstHit [tdP1, tdP2, tdP3] playText.data).map normName
  else if playType = "interception" then (firstHit [intP1, intP2] playText.data).map normName
  else if playType = "fumble" then (firstHit [fumP1, fumP2] playText.data).map normName
  else none

/-- JSON scalar values carried by provider-supplied play fields. -/
inductive JVal where
  | s (v : String)
  | b (v : Bool)
  | n (v : Int)
deriving DecidableEq, Repr

/-- A play record is a JSON object: an ordered key/value association list
(JSON objects parsed by Python json have unique keys). -/
abbrev Play := List (String × JVal)

/-- Python dict .get(k): first binding of the key, if any. -/
def getVal (p : Play) (k : String) : Option JVal :=
  (p.find? (fun kv => kv.1 = k)).map (fun kv => kv.2)

/-- play.get('text', ''), under the §6 schema where 'text' is a string. -/
def textOf (p : Play) : String :=
  match getVal p "text" with
  | some (.s v) => v
  | _ => ""

/-- play.get('scoring_play', False) with Python truthiness. -/
def scoringOf (p : Play) : Bool :=
  match getVal p "scoring_play" with
  | some (.b v) => v
  | some (.s v) => v ≠ ""
  | some (.n v) => v ≠ 0
  | none => false

/-- Python dict item assignment d[k] = v on a copy: replace in place if the
key exists (keeping its position), else append the new binding at the end. -/
def setKey (p : Play) (k : String) (v : JVal) : Play :=
  if (getVal p k).isSome then p.map (fun kv => if kv.1 = k then (k, v) else kv)
  else p ++ [(k, v)]

/-- Case-sensitive substring test on Strings (Python `kw in s`). -/
def hasSubStr (kw s : String) : Bool := hasSub kw.data s.data

/-- Lower-case a String (Python str.lower, ASCII). -/
def lowStr (s : String) : String := String.mk (lowL s.data)

/-- Attach the inferred player name to a copied play, as done inside each
category extractor (`if player: td_play['player'] = player`). -/
def annotatePlay (ty : String) (p : Play) : Play :=
  match extractPlayerFromPlayText (textOf p) ty with
  | some nm => if nm = "" then p else setKey p "player" (.s nm)
  | none => p

/-- ComprehensiveDataProcessor._extract_touchdowns. -/
def extractTouchdowns (plays : List Play) : List Play :=
  (plays.filter (fun p => hasSubStr "touchdown" (lowStr (textOf p)))).map
    (annotatePlay "touchdown")

/-- ComprehensiveDataProcessor._extract_interceptions. -/
def extractInterceptions (plays : List Play) : List Play :=
  (plays.filter (fun p => hasSubStr "intercept" (lowStr (textOf p)))).map
    (annotatePlay "interception")

/-- ComprehensiveDataProcessor._extract_fumbles. -/
def extractFumbles (plays : List Play) : List Play :=
  (plays.filter (fun p => hasSubStr "fumble" (lowStr (textOf p)))).map
    (annotatePlay "fumble")

/-- ComprehensiveDataProcessor._extract_scoring_plays. -/
def extractScoringPlays (plays : List Play) : List Play :=
  plays.filter scoringOf

/-- The nested status['type'] JSON value: a dict with optional description
and completed fields, or a non-dict scalar. -/
inductive TypeJ where
  | obj (description : Option String) (completed : Option Bool)
  | prim
deriving DecidableEq, Repr

/-- The game_info['status'] JSON value: a dict with optional 'type' and
'description', or a non-dict scalar rendered by str(). -/
inductive StatusJ where
  | obj (typeF : Option TypeJ) (description : Option String)
  | prim (rendered : String)
deriving DecidableEq, Repr

/-- One entry of game_info['teams'] (abbreviation/score/home_away per §6;
missing fields take the .get defaults at each use site). -/
structure TeamJ where
  abbreviation : Option String
  score : Int
  home_away : Option String
deriving DecidableEq, Repr

/-- The raw record's game_info object. game_id '' stands for a missing or
empty id (both are falsy in the guard). -/
structure GameInfo where
  game_id : String
  date : Option String
  status : Option StatusJ
  venue : JVal
  teams : List TeamJ
deriving DecidableEq, Repr

/-- One raw play-by-play game record (§6 input schema). -/
structure RawGame where
  game_info : GameInfo
  drives : List JVal
  plays : List Play
deriving DecidableEq, Repr

/-- The synthesized box_score.game_info object. -/
structure BoxGameInfo where
  game_id : String
  date : String
  status : StatusJ
  venue : JVal
  attendance : Int
deriving DecidableEq, Repr

/-- One per-team entry of box_score.team_stats. -/
structure TeamStat where
  score : Int
  record : String
  home_away : String
deriving DecidableEq, Repr

/-- The synthesized box score (team_stats keyed by abbreviation, in team
list order; abbreviations are assumed distinct as dict keys). -/
structure BoxScore where
  game_info : BoxGameInfo
  team_stats : List (String × TeamStat)
  player_stats : List (String × JVal)
  scoring_summary : List Play
deriving DecidableEq, Repr

/-- The enriched play-by-play section of a comprehensive record. -/
structure PlayByPlay where
  game_info : GameInfo
  drives : List JVal
  plays : List Play
  scoring_plays : List Play
  touchdowns : List Play
  interceptions : List Play
  fumbles : List Play
deriving DecidableEq, Repr

/-- A comprehensive per-game record (§3). -/
structure Comprehensive where
  game_id : String
  date : String
  box_score : BoxScore
  play_by_play : PlayByPlay
  processing_timestamp : String
deriving DecidableEq, Repr

/-- ComprehensiveDataProcessor._create_team_stats. -/
def createTeamStats (gi : GameInfo) : List (String × TeamStat) :=
  gi.teams.map (fun t =>
    (t.abbreviation.getD "UNK",
     { score := t.score, record := "0-0", home_away := t.home_away.getD "unknown" }))

/-- Python filename.split('_')[0]: the characters before the first underscore. -/
def firstUnderscoreField (s : String) : String :=
  String.mk (s.data.takeWhile (fun c => c ≠ '_'))

/-- ComprehensiveDataProcessor.process_play_by_play_file.  The wall-clock
reading datetime.now().isoformat() is passed in as `nowIso`; the file path
contributes its stem.  A record without a game id yields None. -/
def processPlayByPlayFile (data : RawGame) (fileStem : String) (nowIso : String) :
    Option Comprehensive :=
  let gi := data.game_info
  if gi.game_id = "" then none
  else some
    { game_id := gi.game_id
      date := firstUnderscoreField fileStem
      box_score :=
        { game_info :=
            { game_id := gi.game_id
              date := gi.date.getD ""
              status := gi.status.getD (.obj none none)
              venue := gi.venue
              attendance := 0 }
          team_stats := createTeamStats gi
          player_stats := []
          scoring_summary := [] }
      play_by_play :=
        { game_info := gi
          drives := data.drives
          plays := data.plays
          scoring_plays := extractScoringPlays data.plays
          touchdowns := extractTouchdowns data.plays
          interceptions := extractInterceptions data.plays
          fumbles := extractFumbles data.plays }
      processing_timestamp := nowIso }

/-- Anchored attempt for WeeklyAggregator._extract_yards_from_text's pattern
r"(\d+)\s*yard" (searched over the lower-cased text). -/
def yardsAtt (u : List Char) : Option (List Char) :=
  let ds := u.takeWhile isDigitA
  if ds.isEmpty then none
  else
    let r1 := u.dropWhile isDigitA
    let r2 := r1.dropWhile isWs
    if yardL.isPrefixOf r2 then some ds else none

/-- Python int() of a decimal digit string. -/
def digitsToNat (ds : List Char) : Nat :=
  ds.foldl (fun a c => a * 10 + (c.toNat - 48)) 0

/-- WeeklyAggregator._extract_yards_from_text. -/
def extractYardsFromText (text : String) : Nat :=
  match scanFor yardsAtt (lowL text.data) with
  | some ds => digitsToNat ds
  | none => 0

/-- Tail of the passer pattern after "<upper>." has matched: the greedy
surname [A-Za-z]+, mandatory whitespace, then the literal "pass". -/
def passerTail (r4 : List Char) (c : Char) : Option String :=
  let sur := r4.takeWhile isAlphaA
  let r5 := r4.dropWhile isAlphaA
  if sur.isEmpty then none
  else
    let sp := r5.takeWhile isWs
    let r6 := r5.dropWhile isWs
    if sp.isEmpty then none
    else if passL.isPrefixOf r6 then some (String.mk (c :: '.' :: sur)) else none

/-- WeeklyAggregator._extract_passer_from_text, the anchored case-sensitive
pattern r"^\([^)]*\)\s*([A-Z]\.[A-Za-z]+)\s+pass" against original-cased
text.  Note: no \s* between the period and the surname. -/
def extractPasserFromText (text : String) : Option String :=
  match text.data with
  | o :: r =>
    if o = '(' then
      match r.dropWhile (fun c => c ≠ ')') with
      | cl :: r2 =>
        if cl = ')' then
          match r2.dropWhile isWs with
          | c :: d :: r4 => if d = '.' ∧ isUpperA c then passerTail r4 c else none
          | _ => none
        else none
      | _ => none
    else none
  | _ => none

/-- Python name.replace(' ', '_') (single-character replacement). -/
def underscoreSpaces (nm : String) : String :=
  String.mk (nm.data.map (fun c => if c = ' ' then '_' else c))

/-- The synthesized player_id f"player_{name.replace(' ', '_')}". -/
def playerId (nm : String) : String := "player_" ++ underscoreSpaces nm

/-- Python c.upper() on one ASCII character. -/
def upChar (c : Char) : Char :=
  if 97 ≤ c.toNat ∧ c.toNat ≤ 122 then Char.ofNat (c.toNat - 32) else c

/-- Python team[:3].upper(). -/
def take3Upper (s : String) : String := String.mk ((s.data.take 3).map upChar)

/-- One passing line item (Python dict with these keys). -/
structure PassItem where
  player_id : String
  name : String
  team : String
  team_abbrev : String
  completions : Nat
  attempts : Nat
  yards : Nat
  touchdowns : Nat
  interceptions : Nat
deriving DecidableEq, Repr

/-- One rushing line item. -/
structure RushItem where
  player_id : String
  name : String
  team : String
  team_abbrev : String
  carries : Nat
  yards : Nat
  touchdowns : Nat
deriving DecidableEq, Repr

/-- One receiving line item. -/
structure RecvItem where
  player_id : String
  name : String
  team : String
  team_abbrev : String
  receptions : Nat
  yards : Nat
  touchdowns : Nat
deriving DecidableEq, Repr

/-- One defensive line item. -/
structure DefItem where
  player_id : String
  name : String
  team : String
  team_abbrev : String
  interceptions : Nat
  tackles : Nat
  sacks : Nat
deriving DecidableEq, Repr

/-- The per-game player_stats mapping of category to line item list. -/
structure PlayerStats where
  passing : List PassItem
  rushing : List RushItem
  receiving : List RecvItem
  defensive : List DefItem
deriving DecidableEq, Repr

/-- The empty player_stats value each extraction pass starts from. -/
def emptyStats : PlayerStats := { passing := [], rushing := [], receiving := [], defensive := [] }

/-- Category-wise concatenation of player_stats values. -/
def appendStats (a b : PlayerStats) : PlayerStats :=
  { passing := a.passing ++ b.passing
    rushing := a.rushing ++ b.rushing
    receiving := a.receiving ++ b.receiving
    defensive := a.defensive ++ b.defensive }

/-- WeeklyAggregator._extract_team_from_play.  The comprehensive
box_score.game_info written by the Event Extractor has no 'teams' key, so
the fallback chain ends at the first key of team_stats when at least two
teams are present, else 'Unknown Team'. -/
def extractTeamFromPlay (_play : Play) (c : Comprehensive) : String :=
  if 2 ≤ c.box_score.team_stats.length then
    match c.box_score.team_stats with
    | (ab, _) :: _ => ab
    | [] => "Unknown Team"
  else "Unknown Team"

/-- The touchdown event's attached player, td.get('player'). -/
def playerOf (p : Play) : Option String :=
  match getVal p "player" with
  | some (.s v) => some v
  | _ => none

/-- State threaded through the touchdown loop of
extract_player_stats_from_comprehensive: accumulated line items and the
processed_players set. -/
structure TDState where
  stats : PlayerStats
  processedPlayers : List String
deriving DecidableEq, Repr

/-- One iteration of the touchdown loop in
WeeklyAggregator.extract_player_stats_from_comprehensive: skip events
without a (fresh) attached player, split pass/rush touchdowns, and mark the
player processed at the end of the body in every non-skipped iteration. -/
def stepTd (c : Comprehensive) (st : TDState) (td : Play) : TDState :=
  match playerOf td with
  | none => st
  | some nm =>
    if nm = "" ∨ nm ∈ st.processedPlayers then st
    else
      let text := textOf td
      let textLower := lowStr text
      let team := extractTeamFromPlay td c
      let stats := st.stats
      let stats1 :=
        if hasSubStr "pass" textLower && hasSubStr "to" textLower then
          let withPasser :=
            match extractPasserFromText text with
            | some passer =>
              { stats with passing := stats.passing ++
                  [({ player_id := playerId passer, name := passer, team := team
                      team_abbrev := take3Upper team, completions := 1, attempts := 1
                      yards := extractYardsFromText textLower, touchdowns := 1
                      interceptions := 0 } : PassItem)] }
            | none => stats
          { withPasser with receiving := withPasser.receiving ++
              [({ player_id := playerId nm, name := nm, team := team
                  team_abbrev := take3Upper team, receptions := 1
                  yards := extractYardsFromText textLower, touchdowns := 1 } : RecvItem)] }
        else if hasSubStr "run" textLower || hasSubStr "rush" textLower then
          { stats with rushing := stats.rushing ++
              [({ player_id := playerId nm, name := nm, team := team
                  team_abbrev := take3Upper team, carries := 1
                  yards := extractYardsFromText text, touchdowns := 1 } : RushItem)] }
        else stats
      { stats := stats1, processedPlayers := st.processedPlayers ++ [nm] }

/-- The interception loop of extract_player_stats_from_comprehensive. -/
def defItemsOf (c : Comprehensive) (ints : List Play) : List DefItem :=
  ints.foldl (fun acc ip =>
    match playerOf ip with
    | none => acc
    | some nm =>
      if nm = "" then acc
      else acc ++
        [{ player_id := playerId nm, name := nm, team := extractTeamFromPlay ip c
           team_abbrev := take3Upper (extractTeamFromPlay ip c)
           interceptions := 1, tackles := 0, sacks := 0 }]) []

/-- WeeklyAggregator.extract_player_stats_from_comprehensive. -/
def extractPlayerStatsFromComprehensive (c : Comprehensive) : PlayerStats :=
  let st := c.play_by_play.touchdowns.foldl (stepTd c)
    { stats := emptyStats, processedPlayers := [] }
  { st.stats with defensive := st.stats.defensive ++ defItemsOf c c.play_by_play.interceptions }

/-- Python str.split('-') (keeping empty components). -/
def splitDash : List Char → List (List Char)
  | [] => [[]]
  | c :: t =>
    if c = '-' then [] :: splitDash t
    else
      match splitDash t with
      | h :: r => (c :: h) :: r
      | [] => [[c]]

/-- Gregorian leap-year test used by datetime's day validation. -/
def isLeap (y : Nat) : Bool := (decide (y % 4 = 0) && decide (y % 100 ≠ 0)) || decide (y % 400 = 0)

/-- Days in a month, as validated by datetime(year, month, day). -/
def daysInMonth (y m : Nat) : Nat :=
  if m = 2 then (if isLeap y then 29 else 28)
  else if m = 4 ∨ m = 6 ∨ m = 9 ∨ m = 11 then 30 else 31

/-- datetime.strptime(s, '%Y-%m-%d'): exactly three dash-separated digit
fields (year exactly 4 digits, month and day 1-2 digits), with calendar
validation; None models the ValueError raise. -/
def parseDate (s : String) : Option (Nat × Nat × Nat) :=
  match splitDash s.data with
  | [ys, ms, ds] =>
    if ys.length = 4 ∧ ys.all isDigitA ∧
       1 ≤ ms.length ∧ ms.length ≤ 2 ∧ ms.all isDigitA ∧
       1 ≤ ds.length ∧ ds.length ≤ 2 ∧ ds.all isDigitA then
      let y := digitsToNat ys
      let m := digitsToNat ms
      let d := digitsToNat ds
      if 1 ≤ m ∧ m ≤ 12 ∧ 1 ≤ d ∧ d ≤ daysInMonth y m then some (y, m, d) else none
    else none
  | _ => none

/-- Comparison of two parsed dates (datetime comparison on Y-M-D). -/
def dateLE (a b : Nat × Nat × Nat) : Bool :=
  decide (a.1 < b.1 ∨ (a.1 = b.1 ∧ (a.2.1 < b.2.1 ∨ (a.2.1 = b.2.1 ∧ a.2.2 ≤ b.2.2))))

/-- The configured preseason 2025 week table (self.week_ranges, in
insertion order). -/
def weekRanges : List (Nat × String × String) :=
  [(1, "2025-08-01", "2025-08-11"),
   (2, "2025-08-12", "2025-08-18"),
   (3, "2025-08-19", "2025-08-25"),
   (4, "2025-08-26", "2025-08-31")]

/-- The body of the range test inside get_week_for_date: inclusive
start_obj <= date_obj <= end_obj on the parsed boundary dates. -/
def inRangeB (d : Nat × Nat × Nat) (wr : Nat × String × String) : Bool :=
  match parseDate wr.2.1, parseDate wr.2.2 with
  | some a, some b => dateLE a d && dateLE d b
  | _, _ => false

/-- WeeklyAggregator.get_week_for_date.  The outer Option models the
strptime ValueError on a malformed date; the inner Option is the
function's own None when no range contains the date. -/
def getWeekForDate (dateStr : String) : Option (Option Nat) :=
  (parseDate dateStr).map (fun d =>
    (weekRanges.find? (inRangeB d)).map (fun wr => wr.1))

/-- One lightweight team descriptor of a weekly game summary. -/
structure TeamOut where
  name : String
  abbreviation : String
  score : Int
  home_away : String
deriving DecidableEq, Repr

/-- A lightweight game summary (weekly 'games' entry); none stands for the
empty-dict fallback of the home/away descriptors. -/
structure GameOut where
  id : String
  date : String
  name : String
  status : String
  completed : Bool
  home_team : Option TeamOut
  away_team : Option TeamOut
deriving DecidableEq, Repr

/-- The game-status/completed derivation inside extract_game_info. -/
def statusFields (st : StatusJ) : String × Bool :=
  match st with
  | .prim rendered => (rendered, true)
  | .obj typeF desc =>
    match typeF.getD (.obj none none) with
    | .obj d c => (d.getD "Final", c.getD false)
    | .prim => (desc.getD "Final", true)

/-- A placeholder team descriptor for the unreachable indexing defaults. -/
def dummyTeam : TeamOut := { name := "", abbreviation := "", score := 0, home_away := "" }

/-- WeeklyAggregator.extract_game_info.  The id/date fall back to
filename-derived values only when absent from the record; records produced
by the Event Extractor always carry both, which the typed model reflects. -/
def extractGameInfo (c : Comprehensive) (_filename : String) : GameOut :=
  let teams : List TeamOut := c.box_score.team_stats.map (fun e =>
    { name := e.1, abbreviation := e.1, score := e.2.score, home_away := e.2.home_away })
  let gs := statusFields c.box_score.game_info.status
  let nm :=
    if 2 ≤ teams.length then
      let awayT := (teams.find? (fun t => t.home_away = "away")).getD (teams.headD dummyTeam)
      let homeT := (teams.find? (fun t => t.home_away = "home")).getD (teams.getD 1 dummyTeam)
      if gs.2 = true ∧ (0 < awayT.score ∨ 0 < homeT.score) then
        awayT.abbreviation ++ " " ++ toString awayT.score ++ ", " ++
          homeT.abbreviation ++ " " ++ toString homeT.score
      else awayT.abbreviation ++ " @ " ++ homeT.abbreviation
    else "Unknown Game"
  { id := c.game_id
    date := c.date
    name := nm
    status := gs.1
    completed := gs.2
    home_team :=
      match teams.find? (fun t => t.home_away = "home") with
      | some t => some t
      | none => teams.head?
    away_team :=
      match teams.find? (fun t => t.home_away = "away") with
      | some t => some t
      | none => teams.get? 1 }

/-- Stable insertion of one element into a name-sorted list (Python sorted
is stable; equal keys keep their original relative order). -/
def insByName (key : α → String) (x : α) : List α → List α
  | [] => [x]
  | y :: t => if key x ≤ key y then x :: y :: t else y :: insByName key x t

/-- Stable sort by a String key, modelling Python sorted(...) over
date-prefixed filenames. -/
def sortByName (key : α → String) (l : List α) : List α := l.foldr (insByName key) []

/-- One comprehensive file on disk as seen by the Weekly Aggregator;
content none models a json.load failure (file skipped by the except). -/
structure CompFile where
  filename : String
  content : Option Comprehensive
deriving DecidableEq, Repr

/-- One weekly_data bucket. -/
structure WeekData where
  week : Nat
  season : Nat
  games : List GameOut
  player_stats : PlayerStats
deriving DecidableEq, Repr

/-- Add one game's summary and stats to its week bucket (defaultdict upsert:
update the existing entry in place, else append a fresh bucket). -/
def addToWeek : List (Nat × WeekData) → Nat → GameOut → PlayerStats → List (Nat × WeekData)
  | [], w, g, ps => [(w, { week := w, season := 2025, games := [g], player_stats := ps })]
  | (w', d) :: t, w, g, ps =>
    if w' = w then
      (w', { d with
              week := w, season := 2025, games := d.games ++ [g],
              player_stats := appendStats d.player_stats ps }) :: t
    else (w', d) :: addToWeek t w g ps

/-- One iteration of the file loop in WeeklyAggregator.aggregate_by_weeks:
unreadable files, dates that fail to parse, and dates outside every
configured range all leave the buckets unchanged (skip with a log line). -/
def aggregateStep (wd : List (Nat × WeekData)) (f : CompFile) : List (Nat × WeekData) :=
  match f.content with
  | none => wd
  | some data =>
    match getWeekForDate (firstUnderscoreField f.filename) with
    | none => wd
    | some none => wd
    | some (some w) =>
      if w = 0 then wd
      else addToWeek wd w (extractGameInfo data f.filename)
        (extractPlayerStatsFromComprehensive data)

/-- The weekly buckets built by aggregate_by_weeks over the sorted file
list (empty when the comprehensive directory is missing). -/
def aggregateByWeeks (dirExists : Bool) (files : List CompFile) : List (Nat × WeekData) :=
  if dirExists then (sortByName (fun f => f.filename) files).foldl aggregateStep []
  else []

/-- Zero-padded two-digit week number, f"{week:02d}". -/
def pad2 (w : Nat) : String := if w < 10 then "0" ++ toString w else toString w

/-- The weekly rollup file name f"week_{week:02d}_2025.json". -/
def weekFileName (w : Nat) : String := "week_" ++ pad2 w ++ "_2025.json"

/-- The rollup files written by one aggregate_by_weeks run (one per
non-empty bucket; writes are modelled as succeeding). -/
def writtenWeekFiles (dirExists : Bool) (files : List CompFile) : List String :=
  (aggregateByWeeks dirExists files).map (fun e => weekFileName e.1)

/-- The boolean result of aggregate_by_weeks: False for a missing
directory, else saved_count > 0. -/
def aggregateByWeeksOk (dirExists : Bool) (files : List CompFile) : Bool :=
  if dirExists then decide (0 < (aggregateByWeeks dirExists files).length) else false

/-- The Weekly Aggregator's process exit status, exit(0 if success else 1). -/
def aggregatorExitCode (dirExists : Bool) (files : List CompFile) : Nat :=
  if aggregateByWeeksOk dirExists files then 0 else 1

/-- One play-by-play source file on disk; content none models a file whose
json.load raises inside process_play_by_play_file (caught, returns None). -/
structure SrcFile where
  name : String
  mtime : Nat
  content : Option RawGame
deriving DecidableEq, Repr

/-- The directory state seen by the Event Extractor: source files and the
already-existing comprehensive outputs with their mtimes. -/
structure FState where
  srcs : List SrcFile
  comps : List (String × Nat)
deriving DecidableEq, Repr

/-- Python startsWith on the character-list level. -/
def startsL (pre s : List Char) : Bool := pre.isPrefixOf s

/-- Whether a file name matches the glob f"{date_pattern}*_play_by_play.json"
(or "*_play_by_play.json" when no pattern is given): literal front, literal
back, and enough characters for both. -/
def matchesGlob (dp : Option String) (nm : String) : Bool :=
  let suf := "_play_by_play.json".data
  (match dp with
   | some d => startsL d.data nm.data && decide (d.data.length + suf.length ≤ nm.data.length)
   | none => true) &&
  suf.isSuffixOf nm.data

/-- Path.stem for the matched *.json names: drop the ".json" suffix. -/
def stemOf (nm : String) : String := String.mk (nm.data.take (nm.data.length - 5))

/-- Worker for str.replace: `skip` counts characters still inside an
occurrence that has already been replaced. -/
def replSubAux (pat rep : List Char) : List Char → Nat → List Char
  | [], _ => []
  | c :: t, skip =>
    match skip with
    | k + 1 => replSubAux pat rep t k
    | 0 =>
      match pat with
      | [] => c :: replSubAux pat rep t 0
      | _ :: ps =>
        if pat.isPrefixOf (c :: t) then rep ++ replSubAux pat rep t ps.length
        else c :: replSubAux pat rep t 0

/-- Python str.replace(pat, rep): all non-overlapping occurrences, left to
right (an empty pattern is never used here and is treated as no match). -/
def replSub (pat rep s : List Char) : List Char := replSubAux pat rep s 0

/-- The comprehensive output name for one source file,
f"{stem.replace('_play_by_play', '_complete')}.json". -/
def compNameOf (srcName : String) : String :=
  String.mk (replSub "_play_by_play".data "_complete".data (stemOf srcName).data) ++ ".json"

/-- Mtime lookup in the modelled comprehensive directory. -/
def lookupM (comps : List (String × Nat)) (nm : String) : Option Nat :=
  (comps.find? (fun e => e.1 = nm)).map (fun e => e.2)

/-- Record a written comprehensive file (existing name updated in place,
new name appended). -/
def upsertComp (comps : List (String × Nat)) (nm : String) (t : Nat) : List (String × Nat) :=
  if (lookupM comps nm).isSome then comps.map (fun e => if e.1 = nm then (nm, t) else e)
  else comps ++ [(nm, t)]

/-- Accumulated counters, observable name lists, and the live comprehensive
directory during one process_recent_files run. -/
structure RunAcc where
  processedCount : Nat
  failedCount : Nat
  processedNames : List String
  failedNames : List String
  comps : List (String × Nat)
deriving DecidableEq, Repr

/-- Process one non-skipped file: write on success, count a failure on a
None result (missing game id, bad JSON, or any caught exception). -/
def runProc (tW : Nat) (acc : RunAcc) (f : SrcFile) (cn : String) : RunAcc :=
  match f.content.bind (fun rg => processPlayByPlayFile rg (stemOf f.name) "") with
  | some _ =>
    { acc with processedCount := acc.processedCount + 1
               processedNames := acc.processedNames ++ [f.name]
               comps := upsertComp acc.comps cn tW }
  | none =>
    { acc with failedCount := acc.failedCount + 1
               failedNames := acc.failedNames ++ [f.name] }

/-- One iteration of the file loop in process_recent_files: skip when an
existing comprehensive output is strictly newer than the source. -/
def runStep (tW : Nat) (acc : RunAcc) (f : SrcFile) : RunAcc :=
  match lookupM acc.comps (compNameOf f.name) with
  | some cm => if f.mtime < cm then acc else runProc tW acc f (compNameOf f.name)
  | none => runProc tW acc f (compNameOf f.name)

/-- The summary dict returned by process_recent_files. -/
structure RunResult where
  processed : Nat
  failed : Nat
  total : Nat
  processedNames : List String
  failedNames : List String
deriving DecidableEq, Repr

/-- The glob result, sorted as Python sorted() sorts the matched paths. -/
def matchedFiles (fs : FState) (datePattern : Option String) : List SrcFile :=
  sortByName (fun f => f.name) (fs.srcs.filter (fun f => matchesGlob datePattern f.name))

/-- The zeroed run state a fresh processor instance starts from. -/
def initAcc (fs : FState) : RunAcc :=
  { processedCount := 0, failedCount := 0, processedNames := [], failedNames := []
    comps := fs.comps }

/-- The final loop state of one process_recent_files run. -/
def runAccOf (fs : FState) (datePattern : Option String) (tW : Nat) : RunAcc :=
  (matchedFiles fs datePattern).foldl (runStep tW) (initAcc fs)

/-- ComprehensiveDataProcessor.process_recent_files over the modelled
directory state; `tW` is the mtime given to files written during the run. -/
def processRecentFiles (fs : FState) (datePattern : Option String) (tW : Nat) : RunResult :=
  { processed := (runAccOf fs datePattern tW).processedCount
    failed := (runAccOf fs datePattern tW).failedCount
    total := (matchedFiles fs datePattern).length
    processedNames := (runAccOf fs datePattern tW).processedNames
    failedNames := (runAccOf fs datePattern tW).failedNames }

/-- The date pattern actually used by main(): the --all flag clears the
--date-pattern filter and nothing else. -/
def mainDatePattern (argAll : Bool) (argDate : Option String) : Option String :=
  if argAll then none else argDate

/-- The Event Extractor's process exit status: sys.exit(1) iff any file
failed, implicit 0 otherwise. -/
def extractorExitCode (fs : FState) (argAll : Bool) (argDate : Option String) (tW : Nat) : Nat :=
  if 0 < (processRecentFiles fs (mainDatePattern argAll argDate) tW).failed then 1 else 0

/-- Audit predicate: every anchored attempt that starts inside `a` (looking
arbitrarily far into a ++ b) fails.  This is the hypothesis under which a
re.search scan over a ++ b equals the scan over b alone. -/
def noHitIn (att : List Char → Option α) : List Char → List Char → Bool
  | [], _ => true
  | c :: t, b => (att (c :: t ++ b)).isNone && noHitIn att t b

/-- Shape of every name the extractor can return (after trimming and
whitespace normalisation): a letter of either case, a period, at most one
space, then a non-empty run of letters, apostrophes and hyphens. -/
def nameShape (nm : String) : Bool :=
  match nm.data with
  | c :: d :: rest =>
    decide (d = '.') && isAlphaA c &&
      (match rest with
       | e :: r2 =>
         if e = ' ' then !r2.isEmpty && r2.all isSurChar else (e :: r2).all isSurChar
       | [] => false)
  | _ => false

/-- Modelled from the spec: the claimed name shape "Initial. Surname" with
a capital initial (§4.1 of the spec), for comparison with what the
case-insensitive patterns actually capture. -/
def specCapNameShape (nm : String) : Bool :=
  match nm.data with
  | c :: d :: rest =>
    decide (d = '.') && isUpperA c &&
      (match rest with
       | e :: r2 =>
         if e = ' ' then !r2.isEmpty && r2.all isSurChar else (e :: r2).all isSurChar
       | [] => false)
  | _ => false

/-- Shape invariant of every raw capture of the name group
([A-Z]\.\s*[A-Za-z'\-]+) before normalisation. -/
def ShapedGroup (g : List Char) : Prop :=
  ∃ c sp sur, isAlphaA c = true ∧ (∀ x ∈ sp, isWs x = true) ∧ sur ≠ [] ∧
    (∀ x ∈ sur, isSurChar x = true) ∧ g = c :: '.' :: (sp ++ sur)

/-- Drop every 'player' binding from a play object (the view under which
derived event lists must embed into the original play sequence). -/
def erasePlayer (p : Play) : Play := p.filter (fun kv => kv.1 ≠ "player")

/-- Blank out the wall-clock field of a comprehensive record. -/
def clearTimestamp (c : Comprehensive) : Comprehensive := { c with processing_timestamp := "" }

/-- The touchdown events of an extraction pass that are not skipped:
events whose attached player is present, non-empty and not the player of
any earlier non-skipped event (the attempted player name is recorded
whether or not the event emits a line item). -/
def keptTds (seen : List String) : List Play → List Play
  | [] => []
  | td :: t =>
    match playerOf td with
    | none => keptTds seen t
    | some nm =>
      if nm = "" ∨ nm ∈ seen then keptTds seen t
      else td :: keptTds (seen ++ [nm]) t

/-- The line items one touchdown event emits when processed fresh. -/
def emitTd (c : Comprehensive) (td : Play) : PlayerStats :=
  (stepTd c { stats := emptyStats, processedPlayers := [] } td).stats

/-- Concatenated emissions of a touchdown event list. -/
def statsConcat (c : Comprehensive) (tds : List Play) : PlayerStats :=
  tds.foldl (fun a td => appendStats a (emitTd c td)) emptyStats

/-- All game summaries filed under week `w` (across buckets, robust to
duplicate keys even though construction keeps them unique). -/
def gamesAll (wd : List (Nat × WeekData)) (w : Nat) : List GameOut :=
  (wd.filter (fun e => e.1 = w)).foldr (fun e acc => e.2.games ++ acc) []

/-- One passing line item as emitted by the pass-touchdown branch. -/
def passLineItem (team p : String) (y : Nat) : PassItem :=
  { player_id := playerId p, name := p, team := team, team_abbrev := take3Upper team
    completions := 1, attempts := 1, yards := y, touchdowns := 1, interceptions := 0 }

/-- One receiving line item as emitted by the pass-touchdown branch. -/
def recvLineItem (team nm : String) (y : Nat) : RecvItem :=
  { player_id := playerId nm, name := nm, team := team, team_abbrev := take3Upper team
    receptions := 1, yards := y, touchdowns := 1 }

/-- One rushing line item as emitted by the rush-touchdown branch. -/
def rushLineItem (team nm : String) (y : Nat) : RushItem :=
  { player_id := playerId nm, name := nm, team := team, team_abbrev := take3Upper team
    carries := 1, yards := y, touchdowns := 1 }

/-- The text family of the passing-touchdown play form, split at the word
"pass": formation, passer written X.XS, receiver written Y. YS, and a
decimal yardage DS. -/
def c2Pre (F XS : List Char) (X : Char) : List Char :=
  '(' :: (F ++ [')', ' '] ++ X :: '.' :: XS ++ [' '])

def c2Suf (Y : Char) (YS DS : List Char) : List Char :=
  "pass to ".data ++ Y :: '.' :: ' ' ::
    (YS ++ " for ".data ++ DS ++ " yard ".data ++ "touchdown".data)

def c2Text (F XS : List Char) (X Y : Char) (YS DS : List Char) : List Char :=
  c2Pre F XS X ++ c2Suf Y YS DS

/-- Everything of the play text before the yardage digits. -/
def c2YPre (F XS : List Char) (X Y : Char) (YS : List Char) : List Char :=
  c2Pre F XS X ++ "pass to ".data ++ Y :: '.' :: ' ' :: (YS ++ " for ".data)

/-- A raw game with one play carrying the given text. -/
def rawWithPlay (t : String) : RawGame :=
  { game_info :=
      { game_id := "401", date := none, status := none, venue := .s "", teams := [] }
    drives := []
    plays := [[("text", JVal.s t)]] }

/-- The counterexample text: the passer written with a space after the
initial period, as in the claimed play form. -/
def c2SpacedText : String := "(Shotgun) P. Mahomes pass to T. Kelce for 12 yard touchdown"

/-- The comprehensive record process_play_by_play_file builds from
`rawWithPlay t` (spelled out for direct reasoning about its fields). -/
def singleComp (t : String) (stem now : String) : Comprehensive :=
  { game_id := "401"
    date := firstUnderscoreField stem
    box_score :=
      { game_info :=
          { game_id := "401", date := "", status := .obj none none
            venue := .s "", attendance := 0 }
        team_stats := []
        player_stats := []
        scoring_summary := [] }
    play_by_play :=
      { game_info := { game_id := "401", date := none, status := none
                       venue := .s "", teams := [] }
        drives := []
        plays := [[("text", JVal.s t)]]
        scoring_plays := extractScoringPlays [[("text", JVal.s t)]]
        touchdowns := extractTouchdowns [[("text", JVal.s t)]]
        interceptions := extractInterceptions [[("text", JVal.s t)]]
        fumbles := extractFumbles [[("text", JVal.s t)]] }
    processing_timestamp := now }

/-- A raw game fixture with no plays. -/
def c1Raw : RawGame :=
  { game_info :=
      { game_id := "401", date := some "2025-08-09", status := none, venue := .s "X"
        teams := [] }
    drives := []
    plays := [] }

/-- A play that already carries a provider-supplied 'player' field. -/
def c3Play : Play :=
  [("text", .s "J. Smith runs it in for the touchdown"), ("player", .s "Z. Other")]

/-- A comprehensive record fixture with the given touchdown and
interception event lists, an empty team_stats map, and a plain status. -/
def fixComp (tds ints : List Play) : Comprehensive :=
  { game_id := "401"
    date := "2025-08-09"
    box_score :=
      { game_info :=
          { game_id := "401", date := "", status := .obj none none, venue := .s ""
            attendance := 0 }
        team_stats := []
        player_stats := []
        scoring_summary := [] }
    play_by_play :=
      { game_info :=
          { game_id := "401", date := none, status := none, venue := .s "", teams := [] }
        drives := []
        plays := []
        scoring_plays := []
        touchdowns := tds
        interceptions := ints
        fumbles := [] }
    processing_timestamp := "" }

/-- A touchdown event whose text matches neither the pass nor the rush
branch (no line item is emitted for it). -/
def c6Td1 : Play :=
  [("text", .s "A. Smith finishes the touchdown"), ("player", .s "A. Smith")]

/-- A rushing touchdown event for the same player. -/
def c6Td2 : Play :=
  [("text", .s "A. Smith 5 yard run for the touchdown"), ("player", .s "A. Smith")]

/-- A source file whose comprehensive output already exists and is newer. -/
def c8Src : SrcFile :=
  { name := "2025-08-09_401_play_by_play.json", mtime := 10, content := some c1Raw }

def c8FS : FState :=
  { srcs := [c8Src], comps := [("2025-08-09_401_complete.json", 20)] }

/-- A two-team comprehensive record with no home/away flags and no scores. -/
def c10Comp : Comprehensive :=
  { game_id := "401"
    date := "2025-08-09"
    box_score :=
      { game_info :=
          { game_id := "401", date := "", status := .obj none none, venue := .s ""
            attendance := 0 }
        team_stats :=
          [("DAL", { score := 0, record := "0-0", home_away := "unknown" }),
           ("NYG", { score := 0, record := "0-0", home_away := "unknown" })]
        player_stats := []
        scoring_summary := [] }
    play_by_play :=
      { game_info :=
          { game_id := "401", date := none, status := none, venue := .s "", teams := [] }
        drives := []
        plays := []
        scoring_plays := []
        touchdowns := []
        interceptions := []
        fumbles := [] }
    processing_timestamp := "" }

/-- A pass-touchdown event fixture for the per-event split. -/
def c5Td : Play :=
  [("text", .s "(S) A.Buck pass to B. Cee for 7 yard touchdown"), ("player", .s "B. Cee")]

/-! Helper lemmas: generic scanner facts. -/

theorem scanFor_append_of_noHit (att : List Char → Option α) (a b : List Char)
    (h : noHitIn att a b = true) : scanFor att (a ++ b) = scanFor att b := by
  induction a with
  | nil => rfl
  | cons c t ih =>
    simp only [noHitIn, Bool.and_eq_true, Option.isNone_iff_eq_none] at h
    show (match att (c :: (t ++ b)) with
          | some g => some g
          | none => scanFor att (t ++ b)) = scanFor att b
    have h1 : att (c :: (t ++ b)) = none := h.1
    rw [h1]
    exact ih h.2

theorem scanFor_eq_some (att : List Char → Option α) (s : List Char) (g : α)
    (h : scanFor att s = some g) : ∃ u, att u = some g := by
  induction s with
  | nil => exact ⟨[], by simpa [scanFor] using h⟩
  | cons c t ih =>
    cases hc : att (c :: t) with
    | some g' =>
      refine ⟨c :: t, ?_⟩
      rw [hc]
      simpa [scanFor, hc] using h
    | none =>
      apply ih
      simpa [scanFor, hc] using h

theorem noHitIn_mono (att att2 : List Char → Option α)
    (hmono : ∀ u, att u = none → att2 u = none) (a b : List Char)
    (h : noHitIn att a b = true) : noHitIn att2 a b = true := by
  induction a with
  | nil => rfl
  | cons c t ih =>
    simp only [noHitIn, Bool.and_eq_true, Option.isNone_iff_eq_none] at h ⊢
    exact ⟨hmono _ h.1, ih h.2⟩

/-! Helper lemmas: character classes. -/

theorem notWs_of_alpha (c : Char) (h : isAlphaA c = true) : isWs c = false := by
  simp only [isAlphaA, Bool.or_eq_true, decide_eq_true_eq] at h
  simp only [isWs, Bool.or_eq_false_iff, decide_eq_false_iff_not]
  omega

theorem notWs_of_sur (c : Char) (h : isSurChar c = true) : isWs c = false := by
  simp only [isSurChar, isAlphaA, Bool.or_eq_true, decide_eq_true_eq] at h
  simp only [isWs, Bool.or_eq_false_iff, decide_eq_false_iff_not]
  omega

theorem notWs_of_digit (c : Char) (h : isDigitA c = true) : isWs c = false := by
  simp only [isDigitA, decide_eq_true_eq] at h
  simp only [isWs, Bool.or_eq_false_iff, decide_eq_false_iff_not]
  omega

theorem sur_of_alpha (c : Char) (h : isAlphaA c = true) : isSurChar c = true := by
  simp only [isSurChar, Bool.or_eq_true]
  exact Or.inl (Or.inl h)

theorem notDigit_of_alpha (c : Char) (h : isAlphaA c = true) : isDigitA c = false := by
  simp only [isAlphaA, Bool.or_eq_true, decide_eq_true_eq] at h
  simp only [isDigitA, decide_eq_false_iff_not]
  omega

theorem ne_space_of_sur (c : Char) (h : isSurChar c = true) : c ≠ ' ' := by
  intro hc
  subst hc
  exact absurd h (by decide)

theorem alpha_of_upper (c : Char) (h : isUpperA c = true) : isAlphaA c = true := by
  simp only [isUpperA, decide_eq_true_eq] at h
  simp only [isAlphaA, Bool.or_eq_true, decide_eq_true_eq]
  omega

/-! Helper lemmas: takeWhile and dropWhile over concatenations. -/

theorem takeWhile_append_all (p : Char → Bool) (a b : List Char)
    (h : ∀ x ∈ a, p x = true) : (a ++ b).takeWhile p = a ++ b.takeWhile p := by
  induction a with
  | nil => rfl
  | cons c t ih =>
    have hc : p c = true := h c (by simp)
    simp [List.takeWhile, hc, ih (fun x hx => h x (by simp [hx]))]

theorem dropWhile_append_all (p : Char → Bool) (a b : List Char)
    (h : ∀ x ∈ a, p x = true) : (a ++ b).dropWhile p = b.dropWhile p := by
  induction a with
  | nil => rfl
  | cons c t ih =>
    have hc : p c = true := h c (by simp)
    simp [List.dropWhile, hc, ih (fun x hx => h x (by simp [hx]))]

theorem takeWhile_cons_false (p : Char → Bool) (c : Char) (t : List Char)
    (h : p c = false) : (c :: t).takeWhile p = [] := by
  simp [List.takeWhile, h]

theorem dropWhile_cons_false (p : Char → Bool) (c : Char) (t : List Char)
    (h : p c = false) : (c :: t).dropWhile p = c :: t := by
  simp [List.dropWhile, h]

/-! Helper lemmas: substring membership. -/

theorem hasSub_append_right (kw a b : List Char) (h : hasSub kw b = true) :
    hasSub kw (a ++ b) = true := by
  induction a with
  | nil => simpa using h
  | cons c t ih => simp [hasSub, ih]

theorem hasSub_refl (kw : List Char) : hasSub kw kw = true := by
  cases kw with
  | nil => rfl
  | cons c t => simp [hasSub, List.isPrefixOf]

theorem lowL_append (a b : List Char) : lowL (a ++ b) = lowL a ++ lowL b := by
  simp [lowL]

/-! Helper lemmas: whitespace normalisation of captured groups. -/

theorem collapseWs_no_ws (s : List Char) (h : ∀ x ∈ s, isWs x = false) :
    collapseWs s = s := by
  induction s with
  | nil => rfl
  | cons c t ih =>
    have hc : isWs c = false := h c (by simp)
    simp [collapseWs] at ih ⊢
    rw [hc]
    simp [ih (fun x hx => h x (by simp [hx]))]

theorem collapseWs_cons_nonws (c : Char) (s : List Char) (h : isWs c = false) :
    collapseWs (c :: s) = c :: collapseWs s := by
  simp [collapseWs, h]

/-! Helper lemmas: shape of every raw name capture. -/

theorem shrinkSur_some (kwLow pre : List Char) (surRev rest g : List Char)
    (hs : ∀ x ∈ surRev, isSurChar x = true)
    (h : shrinkSur kwLow pre surRev rest = some g) :
    ∃ sr, sr ≠ [] ∧ (∀ x ∈ sr, isSurChar x = true) ∧ g = pre ++ sr := by
  induction surRev generalizing rest with
  | nil => simp [shrinkSur] at h
  | cons c rs ih =>
    simp only [shrinkSur] at h
    split at h
    · refine ⟨(c :: rs).reverse, by simp, ?_, ?_⟩
      · intro x hx
        exact hs x (List.mem_reverse.mp hx)
      · simpa using h.symm
    · exact ih (c :: rest) (fun x hx => hs x (List.mem_cons_of_mem c hx)) h

theorem nameAt_shaped (s g r : List Char) (h : nameAt s = some (g, r)) : ShapedGroup g := by
  match s with
  | [] => simp [nameAt] at h
  | [c] => simp [nameAt] at h
  | c :: d :: rr =>
    simp only [nameAt] at h
    split at h
    · next hcd =>
      split at h
      · simp at h
      · next hsur =>
        simp only [Option.some.injEq, Prod.mk.injEq] at h
        refine ⟨c, rr.takeWhile isWs, (rr.dropWhile isWs).takeWhile isSurChar, hcd.2,
          fun x hx => List.mem_takeWhile_imp hx, ?_,
          fun x hx => List.mem_takeWhile_imp hx, h.1.symm⟩
        simpa [List.isEmpty_iff] using hsur
    · simp at h

theorem nameKwAt_shaped (kwLow s g : List Char) (h : nameKwAt kwLow s = some g) :
    ShapedGroup g := by
  match s with
  | [] => simp [nameKwAt] at h
  | [c] => simp [nameKwAt] at h
  | c :: d :: rr =>
    simp only [nameKwAt] at h
    split at h
    · next hcd =>
      obtain ⟨sr, hne, hall, hg⟩ := shrinkSur_some _ _ _ _ _
        (fun x hx => List.mem_takeWhile_imp (List.mem_reverse.mp hx)) h
      exact ⟨c, rr.takeWhile isWs, sr, hcd.2, fun x hx => List.mem_takeWhile_imp hx,
        hne, hall, by rw [hg]; simp⟩
    · simp at h

theorem tdToAtt_shaped (u g : List Char) (h : tdToAtt u = some g) : ShapedGroup g := by
  simp only [tdToAtt] at h
  split at h
  · exact absurd h (by simp)
  · split at h
    · exact absurd h (by simp)
    · exact nameKwAt_shaped _ _ _ h

theorem tdP1_shaped (s g : List Char) (h : tdP1 s = some g) : ShapedGroup g := by
  obtain ⟨u, hu⟩ := scanFor_eq_some _ _ _ h
  simp only [tdP1Att] at hu
  split at hu
  · exact absurd hu (by simp)
  · obtain ⟨v, hv⟩ := scanFor_eq_some _ _ _ hu
    exact tdToAtt_shaped _ _ hv

theorem tdP2_shaped (s g : List Char) (h : tdP2 s = some g) : ShapedGroup g := by
  obtain ⟨u, hu⟩ := scanFor_eq_some _ _ _ h
  simp only [tdP2Att] at hu
  split at hu
  · exact absurd hu (by simp)
  · next g2 r2 heq =>
    have hsh := nameAt_shaped _ _ _ heq
    split at hu
    · exact absurd hu (by simp)
    · split at hu
      · exact absurd hu (by simp)
      · split at hu
        · exact absurd hu (by simp)
        · split at hu
          · exact absurd hu (by simp)
          · split at hu
            · simp only [Option.some.injEq] at hu
              exact hu ▸ hsh
            · exact absurd hu (by simp)

theorem tdP3_shaped (s g : List Char) (h : tdP3 s = some g) : ShapedGroup g := by
  obtain ⟨u, hu⟩ := scanFor_eq_some _ _ _ h
  exact nameKwAt_shaped _ _ _ hu

theorem byNameAtt_shaped (u g : List Char) (h : byNameAtt u = some g) : ShapedGroup g := by
  simp only [byNameAtt] at h
  split at h
  · exact absurd h (by simp)
  · split at h
    · exact absurd h (by simp)
    · rcases hn : nameAt _ with _ | ⟨⟨g1, r1⟩⟩
      · rw [hn] at h
        exact absurd h (by simp)
      · rw [hn] at h
        simp at h
        have hsh := nameAt_shaped _ _ _ hn
        exact h ▸ hsh

theorem intP1_shaped (s g : List Char) (h : intP1 s = some g) : ShapedGroup g := by
  obtain ⟨u, hu⟩ := scanFor_eq_some _ _ _ h
  simp only [intP1Att] at hu
  split at hu
  · exact absurd hu (by simp)
  · obtain ⟨v, hv⟩ := scanFor_eq_some _ _ _ hu
    exact byNameAtt_shaped _ _ hv

theorem intP2_shaped (s g : List Char) (h : intP2 s = some g) : ShapedGroup g := by
  obtain ⟨u, hu⟩ := scanFor_eq_some _ _ _ h
  exact nameKwAt_shaped _ _ _ hu

theorem fumP1_shaped (s g : List Char) (h : fumP1 s = some g) : ShapedGroup g := by
  obtain ⟨u, hu⟩ := scanFor_eq_some _ _ _ h
  exact nameKwAt_shaped _ _ _ hu

theorem fumP2_shaped (s g : List Char) (h : fumP2 s = some g) : ShapedGroup g := by
  obtain ⟨u, hu⟩ := scanFor_eq_some _ _ _ h
  simp only [fumP2Att] at hu
  split at hu
  · exact absurd hu (by simp)
  · obtain ⟨v, hv⟩ := scanFor_eq_some _ _ _ hu
    exact byNameAtt_shaped _ _ hv

/-! Helper lemmas: normalisation keeps the capture shape. -/

theorem stripWsL_shaped (g : List Char) (hg : ShapedGroup g) : stripWsL g = g := by
  obtain ⟨c, sp, sur, hc, _, hsne, hsur, rfl⟩ := hg
  have hrevne : sur.reverse ≠ [] := by simpa using hsne
  obtain ⟨y, ys, hrev⟩ := List.exists_cons_of_ne_nil hrevne
  have hy : isSurChar y = true := by
    apply hsur
    have hmem : y ∈ sur.reverse := by rw [hrev]; exact List.mem_cons_self _ _
    simpa using hmem
  unfold stripWsL
  rw [dropWhile_cons_false _ _ _ (notWs_of_alpha c hc)]
  have h2 : (c :: '.' :: (sp ++ sur)).reverse = y :: (ys ++ (sp.reverse ++ ['.', c])) := by
    simp [List.reverse_cons, List.reverse_append, hrev]
  rw [h2, dropWhile_cons_false _ _ _ (notWs_of_sur y hy), ← h2]
  simp

theorem collapseWs_cons (c : Char) (s : List Char) :
    collapseWs (c :: s) =
      if isWs c then
        (if (collapseWs s).head? = some ' ' then collapseWs s else ' ' :: collapseWs s)
      else c :: collapseWs s := rfl

theorem ne_space_of_notWs (c : Char) (h : isWs c = false) : c ≠ ' ' := by
  intro hc
  subst hc
  exact absurd h (by decide)

theorem collapse_ws_append (sp sur : List Char) (hsp : ∀ x ∈ sp, isWs x = true)
    (hspne : sp ≠ []) (hsur : ∀ x ∈ sur, isWs x = false) (hsurne : sur ≠ []) :
    collapseWs (sp ++ sur) = ' ' :: sur := by
  induction sp with
  | nil => exact absurd rfl hspne
  | cons w ws ih =>
    have hw : isWs w = true := hsp w (by simp)
    cases ws with
    | nil =>
      obtain ⟨s0, st, rfl⟩ := List.exists_cons_of_ne_nil hsurne
      have hs0 : isWs s0 = false := hsur s0 (by simp)
      have hst : collapseWs st = st := collapseWs_no_ws st (fun x hx => hsur x (by simp [hx]))
      have hs0ne : s0 ≠ ' ' := ne_space_of_notWs s0 hs0
      rw [List.cons_append, collapseWs_cons, hw, List.nil_append,
          collapseWs_cons_nonws _ _ hs0, hst]
      simp [hs0ne]
    | cons w2 ws2 =>
      have hih : collapseWs ((w2 :: ws2) ++ sur) = ' ' :: sur :=
        ih (fun x hx => hsp x (List.mem_cons_of_mem w hx)) (by simp)
      rw [List.cons_append, collapseWs_cons, hw, hih]
      simp

theorem normName_shaped (g : List Char) (hg : ShapedGroup g) :
    nameShape (normName g) = true := by
  have hstrip := stripWsL_shaped g hg
  obtain ⟨c, sp, sur, hc, hsp, hsne, hsur, rfl⟩ := hg
  unfold normName
  rw [hstrip]
  rw [collapseWs_cons_nonws _ _ (notWs_of_alpha c hc),
      collapseWs_cons_nonws _ _ (by decide : isWs '.' = false)]
  have hsurws : ∀ x ∈ sur, isWs x = false := fun x hx => notWs_of_sur x (hsur x hx)
  cases sp with
  | nil =>
    rw [List.nil_append, collapseWs_no_ws sur hsurws]
    obtain ⟨s0, st, rfl⟩ := List.exists_cons_of_ne_nil hsne
    have hs0 : s0 ≠ ' ' := ne_space_of_sur s0 (hsur s0 (by simp))
    simp [nameShape, hc, hs0, List.all_eq_true]
    exact ⟨hsur s0 (by simp), fun x hx => hsur x (by simp [hx])⟩
  | cons w ws =>
    rw [collapse_ws_append (w :: ws) sur hsp (by simp) hsurws hsne]
    obtain ⟨s0, st, rfl⟩ := List.exists_cons_of_ne_nil hsne
    simp [nameShape, hc, List.all_eq_true]
    exact ⟨hsur s0 (by simp), fun x hx => hsur x (by simp [hx])⟩

/-! Helper lemmas: the extractor level. -/

theorem firstHit_mem (ps : List (List Char → Option (List Char))) (s g : List Char)
    (h : firstHit ps s = some g) : ∃ p ∈ ps, p s = some g := by
  induction ps with
  | nil => simp [firstHit] at h
  | cons p pt ih =>
    simp only [firstHit] at h
    split at h
    · next heq => exact ⟨p, by simp, heq.trans h⟩
    · obtain ⟨q, hq, hqs⟩ := ih h
      exact ⟨q, by simp [hq], hqs⟩

theorem extract_name_shaped (t ty nm : String)
    (h : extractPlayerFromPlayText t ty = some nm) : nameShape nm = true := by
  unfold extractPlayerFromPlayText at h
  split at h
  · exact absurd h (by simp)
  split at h
  · obtain ⟨g, hg, hnm⟩ := Option.map_eq_some'.mp h
    obtain ⟨p, hp, hps⟩ := firstHit_mem _ _ _ hg
    have hshape : ShapedGroup g := by
      fin_cases hp
      · exact tdP1_shaped _ _ hps
      · exact tdP2_shaped _ _ hps
      · exact tdP3_shaped _ _ hps
    rw [← hnm]
    exact normName_shaped g hshape
  split at h
  · obtain ⟨g, hg, hnm⟩ := Option.map_eq_some'.mp h
    obtain ⟨p, hp, hps⟩ := firstHit_mem _ _ _ hg
    have hshape : ShapedGroup g := by
      fin_cases hp
      · exact intP1_shaped _ _ hps
      · exact intP2_shaped _ _ hps
    rw [← hnm]
    exact normName_shaped g hshape
  split at h
  · obtain ⟨g, hg, hnm⟩ := Option.map_eq_some'.mp h
    obtain ⟨p, hp, hps⟩ := firstHit_mem _ _ _ hg
    have hshape : ShapedGroup g := by
      fin_cases hp
      · exact fumP1_shaped _ _ hps
      · exact fumP2_shaped _ _ hps
    rw [← hnm]
    exact normName_shaped g hshape
  · exact absurd h (by simp)

/-! Helper lemmas: derived event lists only touch the 'player' binding. -/

theorem erase_map_playerfn (p : Play) (v : JVal) :
    erasePlayer (p.map (fun kv => if kv.1 = "player" then ("player", v) else kv)) =
      erasePlayer p := by
  induction p with
  | nil => rfl
  | cons kv t ih =>
    by_cases hk : kv.1 = "player"
    · simp [erasePlayer, List.filter_cons, hk] at ih ⊢
      exact ih
    · simp [erasePlayer, List.filter_cons, hk] at ih ⊢
      exact ih

theorem erase_setKey_player (p : Play) (v : JVal) :
    erasePlayer (setKey p "player" v) = erasePlayer p := by
  unfold setKey
  split
  · exact erase_map_playerfn p v
  · simp [erasePlayer, List.filter_append, List.filter_cons]

theorem erase_annotate (ty : String) (p : Play) :
    erasePlayer (annotatePlay ty p) = erasePlayer p := by
  unfold annotatePlay
  split
  · split
    · rfl
    · exact erase_setKey_player p _
  · rfl

theorem find?_map_playerfn (p : Play) (v : JVal) (k : String) (hk : k ≠ "player") :
    (p.map (fun kv => if kv.1 = "player" then ("player", v) else kv)).find?
        (fun kv => kv.1 = k) = p.find? (fun kv => kv.1 = k) := by
  induction p with
  | nil => rfl
  | cons kv0 t ih =>
    rw [List.map_cons]
    by_cases h0 : kv0.1 = "player"
    · rw [if_pos h0]
      rw [List.find?_cons_of_neg _ (by simp; exact fun hc => hk hc.symm),
          List.find?_cons_of_neg _ (by
            simp [h0]
            exact fun hc => hk hc.symm)]
      exact ih
    · rw [if_neg h0]
      by_cases h1 : kv0.1 = k
      · rw [List.find?_cons_of_pos _ (by simp [h1]), List.find?_cons_of_pos _ (by simp [h1])]
      · rw [List.find?_cons_of_neg _ (by simp [h1]), List.find?_cons_of_neg _ (by simp [h1])]
        exact ih

theorem find?_append_single_neg (p : Play) (x : String × JVal) (k : String)
    (hx : ¬(x.1 = k)) :
    (p ++ [x]).find? (fun kv => kv.1 = k) = p.find? (fun kv => kv.1 = k) := by
  induction p with
  | nil =>
    rw [List.nil_append, List.find?_cons_of_neg _ (by simpa using hx)]
  | cons kv0 t ih =>
    rw [List.cons_append]
    by_cases h1 : kv0.1 = k
    · rw [List.find?_cons_of_pos _ (by simp [h1]), List.find?_cons_of_pos _ (by simp [h1])]
    · rw [List.find?_cons_of_neg _ (by simp [h1]), List.find?_cons_of_neg _ (by simp [h1])]
      exact ih

theorem getVal_setKey_ne (p : Play) (v : JVal) (k : String) (hk : k ≠ "player") :
    getVal (setKey p "player" v) k = getVal p k := by
  unfold setKey getVal
  split
  · rw [find?_map_playerfn p v k hk]
  · rw [find?_append_single_neg p _ k (fun hc => hk hc.symm)]

theorem getVal_annotate_ne (ty : String) (p : Play) (k : String) (hk : k ≠ "player") :
    getVal (annotatePlay ty p) k = getVal p k := by
  unfold annotatePlay
  split
  · split
    · rfl
    · exact getVal_setKey_ne p _ k hk
  · rfl

theorem derived_erased_sublist (plays : List Play) (ty : String) (phi : Play → Bool) :
    List.Sublist (((plays.filter phi).map (annotatePlay ty)).map erasePlayer)
      (plays.map erasePlayer) := by
  have h1 : ((plays.filter phi).map (annotatePlay ty)).map erasePlayer =
      (plays.filter phi).map erasePlayer := by
    rw [List.map_map]
    exact List.map_congr_left (fun p _ => erase_annotate ty p)
  rw [h1]
  exact (List.filter_sublist plays).map erasePlayer

theorem derived_mem_preserves (plays : List Play) (ty : String) (phi : Play → Bool)
    (q : Play) (hq : q ∈ (plays.filter phi).map (annotatePlay ty)) :
    ∃ p ∈ plays, ∀ k, k ≠ "player" → getVal q k = getVal p k := by
  obtain ⟨p, hp, rfl⟩ := List.mem_map.mp hq
  exact ⟨p, List.mem_of_mem_filter hp, fun k hk => getVal_annotate_ne ty p k hk⟩

/-! Helper lemmas: the touchdown statistics fold. -/

theorem appendStats_empty_left (a : PlayerStats) : appendStats emptyStats a = a := by
  simp [appendStats, emptyStats]

theorem appendStats_empty_right (a : PlayerStats) : appendStats a emptyStats = a := by
  simp [appendStats, emptyStats]

theorem appendStats_assoc (a b d : PlayerStats) :
    appendStats (appendStats a b) d = appendStats a (appendStats b d) := by
  simp [appendStats]

theorem stepTd_skip_none (c : Comprehensive) (st : TDState) (td : Play)
    (hp : playerOf td = none) : stepTd c st td = st := by
  unfold stepTd
  rw [hp]

theorem stepTd_skip_dup (c : Comprehensive) (st : TDState) (td : Play) (nm : String)
    (hp : playerOf td = some nm) (hd : nm = "" ∨ nm ∈ st.processedPlayers) :
    stepTd c st td = st := by
  unfold stepTd
  rw [hp]
  dsimp only
  rw [if_pos hd]

theorem stepTd_fresh (c : Comprehensive) (st : TDState) (td : Play) (nm : String)
    (hp : playerOf td = some nm) (hne : nm ≠ "") (hmem : nm ∉ st.processedPlayers) :
    stepTd c st td =
      { stats := appendStats st.stats (emitTd c td)
        processedPlayers := st.processedPlayers ++ [nm] } := by
  unfold emitTd stepTd
  rw [hp]
  dsimp only
  rw [if_neg (show ¬(nm = "" ∨ nm ∈ st.processedPlayers) by simp [hne, hmem]),
      if_neg (show ¬(nm = "" ∨ nm ∈ ([] : List String)) by simp [hne])]
  cases hps : extractPasserFromText (textOf td) with
  | some passer =>
    split
    · next h => simp [h, hps, appendStats, emptyStats]
    · next h =>
      split
      · next h2 => simp [h, h2, appendStats, emptyStats]
      · next h2 => simp [h, h2, appendStats, emptyStats]
  | none =>
    split
    · next h => simp [h, hps, appendStats, emptyStats]
    · next h =>
      split
      · next h2 => simp [h, h2, appendStats, emptyStats]
      · next h2 => simp [h, h2, appendStats, emptyStats]

theorem foldl_emit_append (c : Comprehensive) (l : List Play) (a : PlayerStats) :
    l.foldl (fun x td => appendStats x (emitTd c td)) a = appendStats a (statsConcat c l) := by
  induction l generalizing a with
  | nil => simp [statsConcat, appendStats_empty_right]
  | cons td t ih =>
    rw [List.foldl_cons, ih]
    have : statsConcat c (td :: t) = appendStats (emitTd c td) (statsConcat c t) := by
      show (td :: t).foldl (fun x td => appendStats x (emitTd c td)) emptyStats = _
      rw [List.foldl_cons, ih, appendStats_empty_left]
    rw [this, appendStats_assoc]

theorem statsConcat_cons (c : Comprehensive) (td : Play) (l : List Play) :
    statsConcat c (td :: l) = appendStats (emitTd c td) (statsConcat c l) := by
  show (td :: l).foldl (fun x td => appendStats x (emitTd c td)) emptyStats = _
  rw [List.foldl_cons, foldl_emit_append, appendStats_empty_left]

theorem foldl_stepTd_chars (c : Comprehensive) (tds : List Play) : ∀ st : TDState,
    tds.foldl (stepTd c) st =
      { stats := appendStats st.stats (statsConcat c (keptTds st.processedPlayers tds))
        processedPlayers := st.processedPlayers ++
          (keptTds st.processedPlayers tds).filterMap playerOf } := by
  induction tds with
  | nil =>
    intro st
    simp [keptTds, statsConcat, appendStats_empty_right]
  | cons td t ih =>
    intro st
    cases hp : playerOf td with
    | none =>
      rw [List.foldl_cons, stepTd_skip_none c st td hp, ih st]
      simp [keptTds, hp]
    | some nm =>
      by_cases hskip : nm = "" ∨ nm ∈ st.processedPlayers
      · rw [List.foldl_cons, stepTd_skip_dup c st td nm hp hskip, ih st]
        simp only [keptTds, hp]
        rw [if_pos hskip]
      · push_neg at hskip
        rw [List.foldl_cons, stepTd_fresh c st td nm hp hskip.1 hskip.2, ih _]
        simp only [keptTds, hp]
        rw [if_neg (by tauto)]
        rw [statsConcat_cons]
        simp [hp, appendStats_assoc, List.append_assoc, List.filterMap_cons]

theorem extract_stats_chars (c : Comprehensive) :
    extractPlayerStatsFromComprehensive c =
      { statsConcat c (keptTds [] c.play_by_play.touchdowns) with
        defensive := (statsConcat c (keptTds [] c.play_by_play.touchdowns)).defensive ++
          defItemsOf c c.play_by_play.interceptions } := by
  unfold extractPlayerStatsFromComprehensive
  rw [foldl_stepTd_chars]
  simp [appendStats_empty_left]

/-! Helper lemmas: week resolution. -/

theorem inRange1 (d : Nat × Nat × Nat) :
    inRangeB d (1, "2025-08-01", "2025-08-11") = true ↔
      (dateLE (2025, 8, 1) d = true ∧ dateLE d (2025, 8, 11) = true) := by
  rw [show inRangeB d (1, "2025-08-01", "2025-08-11") =
    (dateLE (2025, 8, 1) d && dateLE d (2025, 8, 11)) from rfl]
  exact iff_of_eq (Bool.and_eq_true _ _)

theorem inRange2 (d : Nat × Nat × Nat) :
    inRangeB d (2, "2025-08-12", "2025-08-18") = true ↔
      (dateLE (2025, 8, 12) d = true ∧ dateLE d (2025, 8, 18) = true) := by
  rw [show inRangeB d (2, "2025-08-12", "2025-08-18") =
    (dateLE (2025, 8, 12) d && dateLE d (2025, 8, 18)) from rfl]
  exact iff_of_eq (Bool.and_eq_true _ _)

theorem inRange3 (d : Nat × Nat × Nat) :
    inRangeB d (3, "2025-08-19", "2025-08-25") = true ↔
      (dateLE (2025, 8, 19) d = true ∧ dateLE d (2025, 8, 25) = true) := by
  rw [show inRangeB d (3, "2025-08-19", "2025-08-25") =
    (dateLE (2025, 8, 19) d && dateLE d (2025, 8, 25)) from rfl]
  exact iff_of_eq (Bool.and_eq_true _ _)

theorem inRange4 (d : Nat × Nat × Nat) :
    inRangeB d (4, "2025-08-26", "2025-08-31") = true ↔
      (dateLE (2025, 8, 26) d = true ∧ dateLE d (2025, 8, 31) = true) := by
  rw [show inRangeB d (4, "2025-08-26", "2025-08-31") =
    (dateLE (2025, 8, 26) d && dateLE d (2025, 8, 31)) from rfl]
  exact iff_of_eq (Bool.and_eq_true _ _)

theorem dateLE_lo (y m dd : Nat) (d : Nat × Nat × Nat) :
    dateLE (y, m, dd) d = true ↔
      (y < d.1 ∨ (y = d.1 ∧ (m < d.2.1 ∨ (m = d.2.1 ∧ dd ≤ d.2.2)))) := by
  simp [dateLE]

theorem dateLE_hi (d : Nat × Nat × Nat) (y m dd : Nat) :
    dateLE d (y, m, dd) = true ↔
      (d.1 < y ∨ (d.1 = y ∧ (d.2.1 < m ∨ (d.2.1 = m ∧ d.2.2 ≤ dd)))) := by
  simp [dateLE]

theorem weekFind_of_mem (d : Nat × Nat × Nat) (w : Nat) (st en : String)
    (hm : (w, st, en) ∈ weekRanges) (hc : inRangeB d (w, st, en) = true) :
    (weekRanges.find? (inRangeB d)).map (fun wr => wr.1) = some w := by
  fin_cases hm
  · simp [weekRanges, List.find?, hc]
  · have hf1 : inRangeB d (1, "2025-08-01", "2025-08-11") = false := by
      cases hb : inRangeB d (1, "2025-08-01", "2025-08-11")
      · rfl
      · obtain ⟨hb1, hb2⟩ := (inRange1 d).mp hb
        obtain ⟨hc1, hc2⟩ := (inRange2 d).mp hc
        simp only [dateLE_lo, dateLE_hi] at hb1 hb2 hc1 hc2
        omega
    simp [weekRanges, List.find?, hf1, hc]
  · have hf1 : inRangeB d (1, "2025-08-01", "2025-08-11") = false := by
      cases hb : inRangeB d (1, "2025-08-01", "2025-08-11")
      · rfl
      · obtain ⟨hb1, hb2⟩ := (inRange1 d).mp hb
        obtain ⟨hc1, hc2⟩ := (inRange3 d).mp hc
        simp only [dateLE_lo, dateLE_hi] at hb1 hb2 hc1 hc2
        omega
    have hf2 : inRangeB d (2, "2025-08-12", "2025-08-18") = false := by
      cases hb : inRangeB d (2, "2025-08-12", "2025-08-18")
      · rfl
      · obtain ⟨hb1, hb2⟩ := (inRange2 d).mp hb
        obtain ⟨hc1, hc2⟩ := (inRange3 d).mp hc
        simp only [dateLE_lo, dateLE_hi] at hb1 hb2 hc1 hc2
        omega
    simp [weekRanges, List.find?, hf1, hf2, hc]
  · have hf1 : inRangeB d (1, "2025-08-01", "2025-08-11") = false := by
      cases hb : inRangeB d (1, "2025-08-01", "2025-08-11")
      · rfl
      · obtain ⟨hb1, hb2⟩ := (inRange1 d).mp hb
        obtain ⟨hc1, hc2⟩ := (inRange4 d).mp hc
        simp only [dateLE_lo, dateLE_hi] at hb1 hb2 hc1 hc2
        omega
    have hf2 : inRangeB d (2, "2025-08-12", "2025-08-18") = false := by
      cases hb : inRangeB d (2, "2025-08-12", "2025-08-18")
      · rfl
      · obtain ⟨hb1, hb2⟩ := (inRange2 d).mp hb
        obtain ⟨hc1, hc2⟩ := (inRange4 d).mp hc
        simp only [dateLE_lo, dateLE_hi] at hb1 hb2 hc1 hc2
        omega
    have hf3 : inRangeB d (3, "2025-08-19", "2025-08-25") = false := by
      cases hb : inRangeB d (3, "2025-08-19", "2025-08-25")
      · rfl
      · obtain ⟨hb1, hb2⟩ := (inRange3 d).mp hb
        obtain ⟨hc1, hc2⟩ := (inRange4 d).mp hc
        simp only [dateLE_lo, dateLE_hi] at hb1 hb2 hc1 hc2
        omega
    simp [weekRanges, List.find?, hf1, hf2, hf3, hc]

/-! Helper lemmas: weekly bucket membership and provenance. -/

theorem mem_gamesAll_addToWeek (wd : List (Nat × WeekData)) (w' w : Nat) (g : GameOut)
    (ps : PlayerStats) (x : GameOut) :
    x ∈ gamesAll (addToWeek wd w' g ps) w ↔ x ∈ gamesAll wd w ∨ (w' = w ∧ x = g) := by
  induction wd with
  | nil =>
    by_cases hw : w' = w
    · simp [addToWeek, gamesAll, hw]
    · simp [addToWeek, gamesAll, hw]
  | cons e t ih =>
    obtain ⟨w0, d0⟩ := e
    by_cases h0 : w0 = w'
    · subst h0
      by_cases hw : w0 = w
      · simp [addToWeek, gamesAll, hw]
        tauto
      · simp [addToWeek, gamesAll, hw]
    · by_cases hw : w0 = w
      · simp only [addToWeek, if_neg h0]
        subst hw
        simp [gamesAll] at ih ⊢
        tauto
      · simp only [addToWeek, if_neg h0]
        simp [gamesAll, hw] at ih ⊢
        exact ih

theorem gamesAll_foldl_mem (files : List CompFile) : ∀ (wd0 : List (Nat × WeekData))
    (w : Nat) (g : GameOut), g ∈ gamesAll (files.foldl aggregateStep wd0) w →
    g ∈ gamesAll wd0 w ∨ ∃ f ∈ files, ∃ data, f.content = some data ∧
      getWeekForDate (firstUnderscoreField f.filename) = some (some w) ∧
      g = extractGameInfo data f.filename := by
  induction files with
  | nil =>
    intro wd0 w g h
    exact Or.inl h
  | cons f t ih =>
    intro wd0 w g h
    rw [List.foldl_cons] at h
    rcases ih _ w g h with h1 | ⟨f', hf', hrest⟩
    · unfold aggregateStep at h1
      split at h1
      · exact Or.inl h1
      · next data hdata =>
        split at h1
        · exact Or.inl h1
        · exact Or.inl h1
        · next w' hweek =>
          split at h1
          · exact Or.inl h1
          · rcases (mem_gamesAll_addToWeek wd0 w' w _ _ g).mp h1 with h2 | ⟨rfl, rfl⟩
            · exact Or.inl h2
            · exact Or.inr ⟨f, by simp, data, hdata, hweek, rfl⟩
    · exact Or.inr ⟨f', by simp [hf'], hrest⟩

theorem mem_insByName (key : α → String) (x a : α) (l : List α) :
    a ∈ insByName key x l ↔ a = x ∨ a ∈ l := by
  induction l with
  | nil => simp [insByName]
  | cons y t ih =>
    unfold insByName
    split
    · simp
    · simp [ih]
      tauto

theorem mem_sortByName (key : α → String) (a : α) (l : List α) :
    a ∈ sortByName key l ↔ a ∈ l := by
  induction l with
  | nil => simp [sortByName]
  | cons y t ih =>
    show a ∈ insByName key y (sortByName key t) ↔ _
    rw [mem_insByName]
    simp [ih]

theorem insByName_perm (key : α → String) (x : α) (l : List α) :
    List.Perm (insByName key x l) (x :: l) := by
  induction l with
  | nil => exact List.Perm.refl _
  | cons y t ih =>
    unfold insByName
    split
    · exact List.Perm.refl _
    · exact (List.Perm.cons y ih).trans (List.Perm.swap x y t)

theorem sortByName_perm (key : α → String) (l : List α) :
    List.Perm (sortByName key l) l := by
  induction l with
  | nil => exact List.Perm.refl _
  | cons y t ih =>
    show List.Perm (insByName key y (sortByName key t)) (y :: t)
    exact (insByName_perm key y (sortByName key t)).trans (List.Perm.cons y ih)

/-! Helper lemmas: the Event Extractor run loop. -/

theorem runStep_counts (tW : Nat) (acc : RunAcc) (f : SrcFile)
    (h1 : acc.failedCount = acc.failedNames.length)
    (h2 : acc.processedCount = acc.processedNames.length) :
    (runStep tW acc f).failedCount = (runStep tW acc f).failedNames.length ∧
    (runStep tW acc f).processedCount = (runStep tW acc f).processedNames.length := by
  unfold runStep runProc
  split
  · split
    · exact ⟨h1, h2⟩
    · split
      · simp [h1, h2]
      · simp [h1, h2]
  · split
    · simp [h1, h2]
    · simp [h1, h2]

theorem foldl_runStep_counts (tW : Nat) (l : List SrcFile) : ∀ acc : RunAcc,
    acc.failedCount = acc.failedNames.length →
    acc.processedCount = acc.processedNames.length →
    (l.foldl (runStep tW) acc).failedCount = (l.foldl (runStep tW) acc).failedNames.length ∧
    (l.foldl (runStep tW) acc).processedCount =
      (l.foldl (runStep tW) acc).processedNames.length := by
  induction l with
  | nil => exact fun acc h1 h2 => ⟨h1, h2⟩
  | cons f t ih =>
    intro acc h1 h2
    rw [List.foldl_cons]
    obtain ⟨h1', h2'⟩ := runStep_counts tW acc f h1 h2
    exact ih _ h1' h2'

theorem runStep_names_stable (tW : Nat) (acc : RunAcc) (f : SrcFile) (nm : String)
    (hne : f.name ≠ nm) :
    (nm ∈ (runStep tW acc f).processedNames ↔ nm ∈ acc.processedNames) ∧
    (nm ∈ (runStep tW acc f).failedNames ↔ nm ∈ acc.failedNames) := by
  unfold runStep runProc
  split
  · split
    · exact ⟨Iff.rfl, Iff.rfl⟩
    · split
      · simp [hne.symm]
      · simp [hne.symm]
  · split
    · simp [hne.symm]
    · simp [hne.symm]

theorem foldl_names_stable (tW : Nat) (l : List SrcFile) (nm : String)
    (hne : ∀ g ∈ l, g.name ≠ nm) : ∀ acc : RunAcc,
    (nm ∈ (l.foldl (runStep tW) acc).processedNames ↔ nm ∈ acc.processedNames) ∧
    (nm ∈ (l.foldl (runStep tW) acc).failedNames ↔ nm ∈ acc.failedNames) := by
  induction l with
  | nil => exact fun acc => ⟨Iff.rfl, Iff.rfl⟩
  | cons f t ih =>
    intro acc
    rw [List.foldl_cons]
    obtain ⟨ih1, ih2⟩ := ih (fun g hg => hne g (by simp [hg])) (runStep tW acc f)
    obtain ⟨s1, s2⟩ := runStep_names_stable tW acc f nm (hne f (by simp))
    exact ⟨ih1.trans s1, ih2.trans s2⟩

theorem find?_append_one_neg (p : α → Bool) (l : List α) (x : α) (hx : p x = false) :
    (l ++ [x]).find? p = l.find? p := by
  induction l with
  | nil => rw [List.nil_append, List.find?_cons_of_neg _ (by simp [hx])]
  | cons y t ih =>
    rw [List.cons_append]
    cases hy : p y
    · rw [List.find?_cons_of_neg _ (by simp [hy]), List.find?_cons_of_neg _ (by simp [hy])]
      exact ih
    · rw [List.find?_cons_of_pos _ hy, List.find?_cons_of_pos _ hy]

theorem find?_map_upsertfn (comps : List (String × Nat)) (nm : String) (t : Nat)
    (cn : String) (h : nm ≠ cn) :
    (comps.map (fun e => if e.1 = nm then (nm, t) else e)).find? (fun e => e.1 = cn) =
      comps.find? (fun e => e.1 = cn) := by
  induction comps with
  | nil => rfl
  | cons e es ih =>
    rw [List.map_cons]
    by_cases he : e.1 = nm
    · rw [if_pos he]
      rw [List.find?_cons_of_neg _ (by simpa using h),
          List.find?_cons_of_neg _ (by
            simp [he]
            exact h)]
      exact ih
    · rw [if_neg he]
      by_cases hc : e.1 = cn
      · rw [List.find?_cons_of_pos _ (by simp [hc]), List.find?_cons_of_pos _ (by simp [hc])]
      · rw [List.find?_cons_of_neg _ (by simp [hc]), List.find?_cons_of_neg _ (by simp [hc])]
        exact ih

theorem append_singleton_ne (l : List α) (a : α) : l ++ [a] ≠ l := by
  intro h
  have := congrArg List.length h
  simp at this

theorem emitTd_pass (c : Comprehensive) (td : Play) (nm : String)
    (hp : playerOf td = some nm) (hne : nm ≠ "")
    (hpass : hasSubStr "pass" (lowStr (textOf td)) = true)
    (hto : hasSubStr "to" (lowStr (textOf td)) = true) :
    emitTd c td =
      match extractPasserFromText (textOf td) with
      | some p =>
        { emptyStats with
          passing := [passLineItem (extractTeamFromPlay td c) p
            (extractYardsFromText (lowStr (textOf td)))]
          receiving := [recvLineItem (extractTeamFromPlay td c) nm
            (extractYardsFromText (lowStr (textOf td)))] }
      | none =>
        { emptyStats with
          receiving := [recvLineItem (extractTeamFromPlay td c) nm
            (extractYardsFromText (lowStr (textOf td)))] } := by
  unfold emitTd stepTd
  rw [hp]
  dsimp only
  rw [if_neg (by simp [hne])]
  cases hps : extractPasserFromText (textOf td) with
  | some p => simp [hpass, hto, hps, passLineItem, recvLineItem, emptyStats]
  | none => simp [hpass, hto, hps, recvLineItem, emptyStats]

theorem lookupM_upsert_ne (comps : List (String × Nat)) (nm : String) (t : Nat)
    (cn : String) (h : nm ≠ cn) : lookupM (upsertComp comps nm t) cn = lookupM comps cn := by
  unfold upsertComp
  split
  · unfold lookupM
    rw [find?_map_upsertfn comps nm t cn h]
  · unfold lookupM
    rw [find?_append_one_neg _ _ _ (by
      simp
      exact fun hc => h hc)]

theorem runStep_skip (tW : Nat) (acc : RunAcc) (f : SrcFile) (cm : Nat)
    (h : lookupM acc.comps (compNameOf f.name) = some cm) (hs : f.mtime < cm) :
    runStep tW acc f = acc := by
  unfold runStep
  rw [h]
  dsimp only
  rw [if_pos hs]

theorem runStep_go (tW : Nat) (acc : RunAcc) (f : SrcFile)
    (h : ∀ cm, lookupM acc.comps (compNameOf f.name) = some cm → ¬ f.mtime < cm) :
    runStep tW acc f = runProc tW acc f (compNameOf f.name) := by
  unfold runStep
  cases hl : lookupM acc.comps (compNameOf f.name) with
  | none => rfl
  | some cm =>
    dsimp only
    rw [if_neg (h cm hl)]

theorem runStep_comps_stable (tW : Nat) (acc : RunAcc) (f : SrcFile) (cn : String)
    (hne : compNameOf f.name ≠ cn) :
    lookupM (runStep tW acc f).comps cn = lookupM acc.comps cn := by
  unfold runStep runProc
  split
  · split
    · rfl
    · split
      · exact lookupM_upsert_ne _ _ _ _ hne
      · rfl
  · split
    · exact lookupM_upsert_ne _ _ _ _ hne
    · rfl

theorem foldl_comps_stable (tW : Nat) (l : List SrcFile) (cn : String)
    (hne : ∀ g ∈ l, compNameOf g.name ≠ cn) : ∀ acc : RunAcc,
    lookupM (l.foldl (runStep tW) acc).comps cn = lookupM acc.comps cn := by
  induction l with
  | nil => exact fun acc => rfl
  | cons f t ih =>
    intro acc
    rw [List.foldl_cons, ih (fun g hg => hne g (by simp [hg])),
        runStep_comps_stable tW acc f cn (hne f (by simp))]

theorem matchedFiles_names_nodup (fs : FState) (dp : Option String)
    (hN : (fs.srcs.map (fun g => g.name)).Nodup) :
    ((matchedFiles fs dp).map (fun g => g.name)).Nodup := by
  have hsub : List.Sublist ((fs.srcs.filter (fun f => matchesGlob dp f.name)).map
      (fun g => g.name)) (fs.srcs.map (fun g => g.name)) :=
    (List.filter_sublist fs.srcs).map _
  have hfil : ((fs.srcs.filter (fun f => matchesGlob dp f.name)).map
      (fun g => g.name)).Nodup := hN.sublist hsub
  exact (((sortByName_perm (fun f => f.name) _).map _).nodup_iff).mpr hfil

theorem matchedFiles_comps_nodup (fs : FState) (dp : Option String)
    (hC : (fs.srcs.map (fun g => compNameOf g.name)).Nodup) :
    ((matchedFiles fs dp).map (fun g => compNameOf g.name)).Nodup := by
  have hsub : List.Sublist ((fs.srcs.filter (fun f => matchesGlob dp f.name)).map
      (fun g => compNameOf g.name)) (fs.srcs.map (fun g => compNameOf g.name)) :=
    (List.filter_sublist fs.srcs).map _
  have hfil : ((fs.srcs.filter (fun f => matchesGlob dp f.name)).map
      (fun g => compNameOf g.name)).Nodup := hC.sublist hsub
  exact (((sortByName_perm (fun f => f.name) _).map _).nodup_iff).mpr hfil

theorem freshGate_decides (fs : FState) (dp : Option String) (tW : Nat) (f : SrcFile)
    (hf : f ∈ fs.srcs)
    (hN : (fs.srcs.map (fun g => g.name)).Nodup)
    (hC : (fs.srcs.map (fun g => compNameOf g.name)).Nodup)
    (hglob : matchesGlob dp f.name = true) :
    ((∃ cm, lookupM fs.comps (compNameOf f.name) = some cm ∧ f.mtime < cm) →
      f.name ∉ (processRecentFiles fs dp tW).processedNames ∧
      f.name ∉ (processRecentFiles fs dp tW).failedNames) ∧
    ((∀ cm, lookupM fs.comps (compNameOf f.name) = some cm → ¬ f.mtime < cm) →
      f.name ∈ (processRecentFiles fs dp tW).processedNames ∨
      f.name ∈ (processRecentFiles fs dp tW).failedNames) := by
  have hmemfiles : f ∈ matchedFiles fs dp :=
    (mem_sortByName _ _ _).mpr (List.mem_filter.mpr ⟨hf, hglob⟩)
  obtain ⟨l1, l2, hdecomp⟩ := List.append_of_mem hmemfiles
  have hNf := matchedFiles_names_nodup fs dp hN
  have hCf := matchedFiles_comps_nodup fs dp hC
  rw [hdecomp] at hNf hCf
  simp only [List.map_append, List.map_cons, List.nodup_append] at hNf hCf
  have hname1 : ∀ g ∈ l1, g.name ≠ f.name := by
    intro g hg hc
    exact hNf.2.2 (List.mem_map_of_mem _ hg) (by simp [hc])
  have hname2 : ∀ g ∈ l2, g.name ≠ f.name := by
    intro g hg hc
    exact (List.nodup_cons.mp hNf.2.1).1 (hc ▸ List.mem_map_of_mem _ hg)
  have hcomp1 : ∀ g ∈ l1, compNameOf g.name ≠ compNameOf f.name := by
    intro g hg hc
    exact hCf.2.2 (List.mem_map_of_mem _ hg) (by simp [hc])
  have hrun : runAccOf fs dp tW =
      l2.foldl (runStep tW) (runStep tW (l1.foldl (runStep tW) (initAcc fs)) f) := by
    unfold runAccOf
    rw [hdecomp, List.foldl_append, List.foldl_cons]
  have hlook : lookupM (l1.foldl (runStep tW) (initAcc fs)).comps (compNameOf f.name) =
      lookupM fs.comps (compNameOf f.name) :=
    foldl_comps_stable tW l1 _ hcomp1 (initAcc fs)
  have hnot1 := foldl_names_stable tW l1 f.name hname1 (initAcc fs)
  constructor
  · rintro ⟨cm, hcm, hstale⟩
    have hstep : runStep tW (l1.foldl (runStep tW) (initAcc fs)) f =
        l1.foldl (runStep tW) (initAcc fs) :=
      runStep_skip tW _ f cm (hlook.trans hcm) hstale
    have hfin := foldl_names_stable tW l2 f.name hname2
      (runStep tW (l1.foldl (runStep tW) (initAcc fs)) f)
    constructor
    · show f.name ∉ (runAccOf fs dp tW).processedNames
      rw [hrun]
      intro hmem
      have := (hfin.1.mp hmem)
      rw [hstep] at this
      exact absurd ((hnot1.1.mp this)) (by simp [initAcc])
    · show f.name ∉ (runAccOf fs dp tW).failedNames
      rw [hrun]
      intro hmem
      have := (hfin.2.mp hmem)
      rw [hstep] at this
      exact absurd ((hnot1.2.mp this)) (by simp [initAcc])
  · intro hfresh
    have hstep : runStep tW (l1.foldl (runStep tW) (initAcc fs)) f =
        runProc tW (l1.foldl (runStep tW) (initAcc fs)) f (compNameOf f.name) :=
      runStep_go tW _ f (fun cm hcm => hfresh cm (hlook.symm.trans hcm))
    have hmemproc : f.name ∈ (runProc tW (l1.foldl (runStep tW) (initAcc fs)) f
        (compNameOf f.name)).processedNames ∨
        f.name ∈ (runProc tW (l1.foldl (runStep tW) (initAcc fs)) f
        (compNameOf f.name)).failedNames := by
      unfold runProc
      split
      · exact Or.inl (by simp)
      · exact Or.inr (by simp)
    have hfin := foldl_names_stable tW l2 f.name hname2
      (runStep tW (l1.foldl (runStep tW) (initAcc fs)) f)
    rcases hmemproc with hm | hm
    · refine Or.inl ?_
      show f.name ∈ (runAccOf fs dp tW).processedNames
      rw [hrun]
      exact hfin.1.mpr (by rw [hstep]; exact hm)
    · refine Or.inr ?_
      show f.name ∈ (runAccOf fs dp tW).failedNames
      rw [hrun]
      exact hfin.2.mpr (by rw [hstep]; exact hm)

/-! Helper lemmas: scanner steps and substring positioning. -/

theorem scanFor_cons_none (att : List Char → Option α) (c : Char) (t : List Char)
    (h : att (c :: t) = none) : scanFor att (c :: t) = scanFor att t := by
  show (match att (c :: t) with
        | some g => some g
        | none => scanFor att t) = scanFor att t
  rw [h]

theorem scanFor_self (att : List Char → Option α) (s : List Char) (g : α)
    (h : att s = some g) : scanFor att s = some g := by
  cases s with
  | nil => simpa [scanFor] using h
  | cons c t =>
    show (match att (c :: t) with
          | some g => some g
          | none => scanFor att t) = some g
    rw [h]

theorem isPrefixOf_self_append (a b : List Char) : a.isPrefixOf (a ++ b) = true := by
  induction a with
  | nil => cases b <;> rfl
  | cons c t ih => simp [List.isPrefixOf, ih]

theorem hasSub_of_isPre (kw s : List Char) (h : kw.isPrefixOf s = true) :
    hasSub kw s = true := by
  cases s with
  | nil =>
    cases kw with
    | nil => rfl
    | cons c t => simp [List.isPrefixOf] at h
  | cons c t => simp [hasSub, h]

theorem lowChar_digit (c : Char) (h : isDigitA c = true) : lowChar c = c := by
  simp only [isDigitA, decide_eq_true_eq] at h
  unfold lowChar
  rw [if_neg (by omega)]

theorem lowL_digits (ds : List Char) (h : ∀ x ∈ ds, isDigitA x = true) : lowL ds = ds := by
  induction ds with
  | nil => rfl
  | cons c t ih =>
    have hc := lowChar_digit c (h c (by simp))
    have ht := ih (fun x hx => h x (by simp [hx]))
    simp only [lowL, List.map_cons] at ht ⊢
    rw [hc, ht]

theorem ne_rparen_of_alphaSpace (c : Char) (h : isAlphaA c = true ∨ c = ' ') : c ≠ ')' := by
  intro hc
  subst hc
  rcases h with h | h
  · exact absurd h (by decide)
  · exact absurd h (by decide)

/-! Helper lemmas: cons decompositions of string-literal fragments, and
keyword stripping against explicit cons chains. -/

theorem data_pass : ("pass".data : List Char) = 'p' :: 'a' :: 's' :: 's' :: [] := rfl

theorem data_pass_to : ("pass to ".data : List Char) =
    'p' :: 'a' :: 's' :: 's' :: ' ' :: 't' :: 'o' :: ' ' :: [] := rfl

theorem data_to_sp : (" to ".data : List Char) = ' ' :: 't' :: 'o' :: ' ' :: [] := rfl

theorem data_for_sp : (" for ".data : List Char) = ' ' :: "for ".data := rfl

theorem strip_pass_cons (w : List Char) :
    stripKwCI passL ('p' :: 'a' :: 's' :: 's' :: w) = some w := rfl

theorem strip_to_cons (w : List Char) :
    stripKwCI toL ('t' :: 'o' :: w) = some w := rfl

theorem tdToAtt_space (w : List Char) : tdToAtt (' ' :: w) = none := rfl

/-! Helper lemmas: the pass-touchdown text family (C2). -/

theorem c2Suf_cons (Y : Char) (YS DS : List Char) :
    c2Suf Y YS DS = 'p' :: 'a' :: 's' :: 's' :: ' ' :: 't' :: 'o' :: ' ' :: Y :: '.' :: ' ' ::
      (YS ++ ' ' :: ("for ".data ++ (DS ++ (" yard ".data ++ touchdownL)))) := by
  simp [c2Suf, touchdownL, data_pass_to, data_for_sp]

theorem c2Text_passer_split (F XS YS DS : List Char) (X Y : Char) :
    c2Text F XS X Y YS DS = c2Pre F XS X ++ (passL ++ (" to ".data ++
      (Y :: '.' :: ' ' :: (YS ++ " for ".data ++ DS ++ " yard ".data ++
        "touchdown".data)))) := by
  simp [c2Text, c2Suf, passL, data_pass, data_pass_to, data_to_sp]

theorem c2Text_split (F XS YS DS : List Char) (X Y : Char) :
    c2Text F XS X Y YS DS =
      (c2Pre F XS X ++ ("pass to ".data ++ Y :: '.' :: ' ' ::
        (YS ++ " for ".data ++ DS ++ " yard ".data))) ++ touchdownL := by
  simp [c2Text, c2Suf, touchdownL]

theorem c2_has_td (F XS YS DS : List Char) (X Y : Char) :
    hasSub touchdownL (lowL (c2Text F XS X Y YS DS)) = true := by
  rw [c2Text_split, lowL_append]
  apply hasSub_append_right
  rw [show lowL touchdownL = touchdownL from rfl]
  exact hasSub_refl _

theorem c2_has_to (F XS YS DS : List Char) (X Y : Char) :
    hasSub toL (lowL (c2Text F XS X Y YS DS)) = true := by
  rw [c2Text_split, lowL_append]
  apply hasSub_append_right
  apply hasSub_of_isPre
  rw [show lowL touchdownL = touchdownL from rfl]
  decide

theorem c2_has_pass (F XS YS DS : List Char) (X Y : Char) :
    hasSub passL (lowL (c2Text F XS X Y YS DS)) = true := by
  show hasSub passL (lowL (c2Pre F XS X ++ c2Suf Y YS DS)) = true
  rw [lowL_append]
  apply hasSub_append_right
  show hasSub passL (lowL ("pass to ".data ++ Y :: '.' :: ' ' ::
    (YS ++ " for ".data ++ DS ++ " yard ".data ++ "touchdown".data))) = true
  rw [lowL_append]
  apply hasSub_of_isPre
  show passL.isPrefixOf (passL ++ (" to ".data ++ lowL (Y :: '.' :: ' ' ::
    (YS ++ " for ".data ++ DS ++ " yard ".data ++ "touchdown".data)))) = true
  exact isPrefixOf_self_append _ _

theorem c2_nameKwAt (Y : Char) (YS rest2 : List Char)
    (hY : isAlphaA Y = true) (hYSne : YS ≠ []) (hYS : ∀ x ∈ YS, isAlphaA x = true)
    (htd : hasSub touchdownL (lowL (' ' :: rest2)) = true) :
    nameKwAt touchdownL (Y :: '.' :: ' ' :: (YS ++ ' ' :: rest2)) =
      some (Y :: '.' :: ' ' :: YS) := by
  obtain ⟨y0, yt, rfl⟩ := List.exists_cons_of_ne_nil hYSne
  have hy0 : isAlphaA y0 = true := hYS y0 (by simp)
  have hsp : (' ' :: ((y0 :: yt) ++ ' ' :: rest2)).takeWhile isWs = [' '] := by
    rw [show (' ' :: ((y0 :: yt) ++ ' ' :: rest2)).takeWhile isWs =
          ' ' :: ((y0 :: yt) ++ ' ' :: rest2).takeWhile isWs from rfl,
        show ((y0 :: yt) ++ ' ' :: rest2).takeWhile isWs =
          (y0 :: (yt ++ ' ' :: rest2)).takeWhile isWs from rfl,
        takeWhile_cons_false _ _ _ (notWs_of_alpha y0 hy0)]
  have hr1 : (' ' :: ((y0 :: yt) ++ ' ' :: rest2)).dropWhile isWs =
      (y0 :: yt) ++ ' ' :: rest2 := by
    rw [show (' ' :: ((y0 :: yt) ++ ' ' :: rest2)).dropWhile isWs =
          ((y0 :: yt) ++ ' ' :: rest2).dropWhile isWs from rfl,
        show ((y0 :: yt) ++ ' ' :: rest2).dropWhile isWs =
          (y0 :: (yt ++ ' ' :: rest2)).dropWhile isWs from rfl,
        dropWhile_cons_false _ _ _ (notWs_of_alpha y0 hy0)]
    exact (List.cons_append _ _ _).symm
  have hsur : ((y0 :: yt) ++ ' ' :: rest2).takeWhile isSurChar = y0 :: yt := by
    rw [takeWhile_append_all _ _ _ (fun x hx => sur_of_alpha x (hYS x hx)),
        takeWhile_cons_false _ _ _ (show isSurChar ' ' = false by decide),
        List.append_nil]
  have hr2 : ((y0 :: yt) ++ ' ' :: rest2).dropWhile isSurChar = ' ' :: rest2 := by
    rw [dropWhile_append_all _ _ _ (fun x hx => sur_of_alpha x (hYS x hx)),
        dropWhile_cons_false _ _ _ (show isSurChar ' ' = false by decide)]
  simp only [nameKwAt]
  rw [if_pos (show True ∧ isAlphaA Y = true from ⟨trivial, hY⟩)]
  rw [hsp, hr1, hsur, hr2]
  obtain ⟨z, zs, hz⟩ := List.exists_cons_of_ne_nil
    (show (y0 :: yt).reverse ≠ [] by simp)
  rw [hz]
  simp only [shrinkSur]
  rw [if_pos htd, ← hz, List.reverse_reverse]
  simp

theorem c2_tdToAtt (Y : Char) (YS rest2 : List Char)
    (hY : isAlphaA Y = true) (hYSne : YS ≠ []) (hYS : ∀ x ∈ YS, isAlphaA x = true)
    (htd : hasSub touchdownL (lowL (' ' :: rest2)) = true) :
    tdToAtt ('t' :: 'o' :: ' ' :: Y :: '.' :: ' ' :: (YS ++ ' ' :: rest2)) =
      some (Y :: '.' :: ' ' :: YS) := by
  simp only [tdToAtt, strip_to_cons]
  have hsp : (' ' :: Y :: '.' :: ' ' :: (YS ++ ' ' :: rest2)).takeWhile isWs = [' '] := by
    rw [show (' ' :: Y :: '.' :: ' ' :: (YS ++ ' ' :: rest2)).takeWhile isWs =
          ' ' :: (Y :: '.' :: ' ' :: (YS ++ ' ' :: rest2)).takeWhile isWs from rfl,
        takeWhile_cons_false _ _ _ (notWs_of_alpha Y hY)]
  have hr1 : (' ' :: Y :: '.' :: ' ' :: (YS ++ ' ' :: rest2)).dropWhile isWs =
      Y :: '.' :: ' ' :: (YS ++ ' ' :: rest2) := by
    rw [show (' ' :: Y :: '.' :: ' ' :: (YS ++ ' ' :: rest2)).dropWhile isWs =
          (Y :: '.' :: ' ' :: (YS ++ ' ' :: rest2)).dropWhile isWs from rfl,
        dropWhile_cons_false _ _ _ (notWs_of_alpha Y hY)]
  rw [hsp, hr1]
  rw [if_neg (by simp)]
  exact c2_nameKwAt Y YS rest2 hY hYSne hYS htd

theorem c2_tdP1Att (Y : Char) (YS DS : List Char)
    (hY : isAlphaA Y = true) (hYSne : YS ≠ []) (hYS : ∀ x ∈ YS, isAlphaA x = true) :
    tdP1Att (c2Suf Y YS DS) = some (Y :: '.' :: ' ' :: YS) := by
  have htd : hasSub touchdownL
      (lowL (' ' :: ("for ".data ++ (DS ++ (" yard ".data ++ touchdownL))))) = true := by
    rw [show (' ' :: ("for ".data ++ (DS ++ (" yard ".data ++ touchdownL)))) =
          (' ' :: ("for ".data ++ (DS ++ " yard ".data))) ++ touchdownL by simp,
        lowL_append]
    apply hasSub_append_right
    rw [show lowL touchdownL = touchdownL from rfl]
    exact hasSub_refl _
  simp only [tdP1Att]
  rw [c2Suf_cons, strip_pass_cons]
  dsimp only
  rw [scanFor_cons_none tdToAtt _ _ (tdToAtt_space _)]
  exact scanFor_self _ _ _
    (c2_tdToAtt Y YS ("for ".data ++ (DS ++ (" yard ".data ++ touchdownL))) hY hYSne hYS htd)

theorem c2_extractor (F XS YS DS : List Char) (X Y : Char)
    (hY : isAlphaA Y = true) (hYSne : YS ≠ []) (hYS : ∀ x ∈ YS, isAlphaA x = true)
    (hNoPass : noHitIn (stripKwCI passL) (c2Pre F XS X) (c2Suf Y YS DS) = true) :
    extractPlayerFromPlayText (String.mk (c2Text F XS X Y YS DS)) "touchdown" =
      some (String.mk (Y :: '.' :: ' ' :: YS)) := by
  have htdP1 : tdP1 (c2Text F XS X Y YS DS) = some (Y :: '.' :: ' ' :: YS) := by
    have hmono : ∀ u, stripKwCI passL u = none → tdP1Att u = none := by
      intro u hu
      simp only [tdP1Att, hu]
    have hno : noHitIn tdP1Att (c2Pre F XS X) (c2Suf Y YS DS) = true :=
      noHitIn_mono _ _ hmono _ _ hNoPass
    show scanFor tdP1Att (c2Pre F XS X ++ c2Suf Y YS DS) = some (Y :: '.' :: ' ' :: YS)
    rw [scanFor_append_of_noHit _ _ _ hno]
    exact scanFor_self _ _ _ (c2_tdP1Att Y YS DS hY hYSne hYS)
  have hne : String.mk (c2Text F XS X Y YS DS) ≠ "" := by
    intro hc
    have h2 : c2Text F XS X Y YS DS = [] := congrArg String.data hc
    simp [c2Text, c2Pre] at h2
  have hshape : ShapedGroup (Y :: '.' :: ' ' :: YS) :=
    ⟨Y, [' '], YS, hY,
     by
       intro x hx
       rw [List.mem_singleton] at hx
       subst hx
       rfl,
     hYSne, fun x hx => sur_of_alpha x (hYS x hx), rfl⟩
  have hnorm : normName (Y :: '.' :: ' ' :: YS) = String.mk (Y :: '.' :: ' ' :: YS) := by
    unfold normName
    rw [stripWsL_shaped _ hshape]
    rw [collapseWs_cons_nonws _ _ (notWs_of_alpha Y hY),
        collapseWs_cons_nonws _ _ (show isWs '.' = false from rfl)]
    rw [show collapseWs (' ' :: YS) = ' ' :: YS from
          collapse_ws_append [' '] YS
            (by
              intro x hx
              rw [List.mem_singleton] at hx
              subst hx
              rfl)
            (by simp)
            (fun x hx => notWs_of_alpha x (hYS x hx)) hYSne]
  unfold extractPlayerFromPlayText
  rw [if_neg hne, if_pos rfl]
  rw [show (String.mk (c2Text F XS X Y YS DS)).data = c2Text F XS X Y YS DS from rfl]
  simp only [firstHit, htdP1]
  rw [Option.map_some', hnorm]

theorem c2_passer (F XS S2 : List Char) (X : Char)
    (hX : isUpperA X = true) (hXSne : XS ≠ []) (hXS : ∀ x ∈ XS, isAlphaA x = true)
    (hF : ∀ x ∈ F, isAlphaA x = true ∨ x = ' ') :
    extractPasserFromText (String.mk (c2Pre F XS X ++ (passL ++ S2))) =
      some (String.mk (X :: '.' :: XS)) := by
  have hpred : ∀ x ∈ F, (fun c => decide (c ≠ ')')) x = true := by
    intro x hx
    simp only [decide_eq_true_eq]
    exact ne_rparen_of_alphaSpace x (hF x hx)
  have hdata : (String.mk (c2Pre F XS X ++ (passL ++ S2))).data =
      '(' :: (F ++ ')' :: ' ' :: X :: '.' :: (XS ++ ' ' :: (passL ++ S2))) := by
    show c2Pre F XS X ++ (passL ++ S2) =
      '(' :: (F ++ ')' :: ' ' :: X :: '.' :: (XS ++ ' ' :: (passL ++ S2)))
    simp [c2Pre]
  unfold extractPasserFromText
  rw [hdata]
  dsimp only
  rw [if_pos rfl]
  have hdrop1 : (F ++ ')' :: ' ' :: X :: '.' ::
        (XS ++ ' ' :: (passL ++ S2))).dropWhile (fun c => decide (c ≠ ')')) =
      ')' :: ' ' :: X :: '.' :: (XS ++ ' ' :: (passL ++ S2)) := by
    rw [dropWhile_append_all _ _ _ hpred,
        dropWhile_cons_false _ _ _ (by decide)]
  rw [hdrop1]
  dsimp only
  rw [if_pos rfl]
  have hdrop2 : (' ' :: X :: '.' :: (XS ++ ' ' :: (passL ++ S2))).dropWhile isWs =
      X :: '.' :: (XS ++ ' ' :: (passL ++ S2)) := by
    rw [show (' ' :: X :: '.' :: (XS ++ ' ' :: (passL ++ S2))).dropWhile isWs =
          (X :: '.' :: (XS ++ ' ' :: (passL ++ S2))).dropWhile isWs from rfl,
        dropWhile_cons_false _ _ _ (notWs_of_alpha X (alpha_of_upper X hX))]
  rw [hdrop2]
  dsimp only
  rw [if_pos (show ('.' : Char) = '.' ∧ isUpperA X = true from ⟨rfl, hX⟩)]
  simp only [passerTail]
  have hsur : (XS ++ ' ' :: (passL ++ S2)).takeWhile isAlphaA = XS := by
    rw [takeWhile_append_all _ _ _ hXS,
        takeWhile_cons_false _ _ _ (show isAlphaA ' ' = false by decide),
        List.append_nil]
  have hr5 : (XS ++ ' ' :: (passL ++ S2)).dropWhile isAlphaA = ' ' :: (passL ++ S2) := by
    rw [dropWhile_append_all _ _ _ hXS,
        dropWhile_cons_false _ _ _ (show isAlphaA ' ' = false by decide)]
  rw [hsur, hr5]
  rw [if_neg (by simp [List.isEmpty_iff, hXSne])]
  rw [show (' ' :: (passL ++ S2)).takeWhile isWs = ' ' :: (passL ++ S2).takeWhile isWs from rfl,
      show (passL ++ S2).takeWhile isWs = [] from rfl,
      show (' ' :: (passL ++ S2)).dropWhile isWs = (passL ++ S2).dropWhile isWs from rfl,
      show (passL ++ S2).dropWhile isWs = passL ++ S2 from rfl]
  rw [if_neg (by simp)]
  rw [if_pos (isPrefixOf_self_append passL S2)]

theorem c2_yards (F XS YS DS : List Char) (X Y : Char)
    (hDSne : DS ≠ []) (hDS : ∀ x ∈ DS, isDigitA x = true)
    (hNoDig : noHitIn yardsAtt (lowL (lowL (c2YPre F XS X Y YS)))
      (DS ++ (" yard ".data ++ touchdownL)) = true) :
    extractYardsFromText (lowStr (String.mk (c2Text F XS X Y YS DS))) = digitsToNat DS := by
  have hsplitT : c2Text F XS X Y YS DS =
      c2YPre F XS X Y YS ++ (DS ++ (" yard ".data ++ touchdownL)) := by
    simp [c2Text, c2Suf, c2YPre, touchdownL]
  have harg : lowL (lowL (c2Text F XS X Y YS DS)) =
      lowL (lowL (c2YPre F XS X Y YS)) ++ (DS ++ (" yard ".data ++ touchdownL)) := by
    rw [hsplitT]
    simp only [lowL_append]
    simp only [lowL_digits DS hDS,
      show lowL " yard ".data = " yard ".data from rfl,
      show lowL touchdownL = touchdownL from rfl]
  have hatt : yardsAtt (DS ++ (" yard ".data ++ touchdownL)) = some DS := by
    obtain ⟨d0, dt, rfl⟩ := List.exists_cons_of_ne_nil hDSne
    have h1 : ((d0 :: dt) ++ (" yard ".data ++ touchdownL)).takeWhile isDigitA = d0 :: dt := by
      rw [takeWhile_append_all _ _ _ hDS,
          show (" yard ".data ++ touchdownL).takeWhile isDigitA = [] from rfl,
          List.append_nil]
    have h2 : ((d0 :: dt) ++ (" yard ".data ++ touchdownL)).dropWhile isDigitA =
        " yard ".data ++ touchdownL := by
      rw [dropWhile_append_all _ _ _ hDS,
          show (" yard ".data ++ touchdownL).dropWhile isDigitA =
            " yard ".data ++ touchdownL from rfl]
    simp only [yardsAtt]
    rw [h1, h2,
        show (" yard ".data ++ touchdownL).dropWhile isWs = "yard ".data ++ touchdownL from rfl,
        show yardL.isPrefixOf ("yard ".data ++ touchdownL) = true from rfl]
    simp
  have hscan : scanFor yardsAtt (lowL (lowL (c2Text F XS X Y YS DS))) = some DS := by
    rw [harg, scanFor_append_of_noHit _ _ _ hNoDig]
    exact scanFor_self _ _ _ hatt
  unfold extractYardsFromText
  rw [show (lowStr (String.mk (c2Text F XS X Y YS DS))).data =
        lowL (c2Text F XS X Y YS DS) from rfl]
  rw [hscan]

theorem process_single_play (t stem now : String) :
    processPlayByPlayFile (rawWithPlay t) stem now = some (singleComp t stem now) := rfl

theorem c2_stats (F XS YS DS : List Char) (X Y : Char)
    (hX : isUpperA X = true) (hY : isAlphaA Y = true)
    (hXSne : XS ≠ []) (hXS : ∀ x ∈ XS, isAlphaA x = true)
    (hYSne : YS ≠ []) (hYS : ∀ x ∈ YS, isAlphaA x = true)
    (hDSne : DS ≠ []) (hDS : ∀ x ∈ DS, isDigitA x = true)
    (hF : ∀ x ∈ F, isAlphaA x = true ∨ x = ' ')
    (hNoPass : noHitIn (stripKwCI passL) (c2Pre F XS X) (c2Suf Y YS DS) = true)
    (hNoInt : hasSub interceptL (lowL (c2Text F XS X Y YS DS)) = false)
    (hNoDig : noHitIn yardsAtt (lowL (lowL (c2YPre F XS X Y YS)))
      (DS ++ (" yard ".data ++ touchdownL)) = true) :
    (processPlayByPlayFile (rawWithPlay (String.mk (c2Text F XS X Y YS DS)))
        "2025-08-09_401_play_by_play" "ts").map extractPlayerStatsFromComprehensive =
      some { passing := [passLineItem "Unknown Team" (String.mk (X :: '.' :: XS))
               (digitsToNat DS)]
             rushing := []
             receiving := [recvLineItem "Unknown Team" (String.mk (Y :: '.' :: ' ' :: YS))
               (digitsToNat DS)]
             defensive := [] } := by
  have hext := c2_extractor F XS YS DS X Y hY hYSne hYS hNoPass
  have hRne : String.mk (Y :: '.' :: ' ' :: YS) ≠ "" := by
    intro hc
    have h2 : Y :: '.' :: ' ' :: YS = ([] : List Char) := congrArg String.data hc
    simp at h2
  have hp : playerOf [("text", JVal.s (String.mk (c2Text F XS X Y YS DS))),
      ("player", JVal.s (String.mk (Y :: '.' :: ' ' :: YS)))] =
      some (String.mk (Y :: '.' :: ' ' :: YS)) := rfl
  have hcondT : hasSubStr "touchdown"
      (lowStr (textOf [("text", JVal.s (String.mk (c2Text F XS X Y YS DS)))])) = true := by
    show hasSub touchdownL (lowL (c2Text F XS X Y YS DS)) = true
    exact c2_has_td F XS YS DS X Y
  have hcondI : hasSubStr "intercept"
      (lowStr (textOf [("text", JVal.s (String.mk (c2Text F XS X Y YS DS)))])) = false := by
    show hasSub interceptL (lowL (c2Text F XS X Y YS DS)) = false
    exact hNoInt
  have hann : annotatePlay "touchdown"
      [("text", JVal.s (String.mk (c2Text F XS X Y YS DS)))] =
      [("text", JVal.s (String.mk (c2Text F XS X Y YS DS))),
       ("player", JVal.s (String.mk (Y :: '.' :: ' ' :: YS)))] := by
    unfold annotatePlay
    rw [show textOf [("text", JVal.s (String.mk (c2Text F XS X Y YS DS)))] =
          String.mk (c2Text F XS X Y YS DS) from rfl]
    rw [hext]
    dsimp only
    rw [if_neg hRne]
    rfl
  have hTds : extractTouchdowns [[("text", JVal.s (String.mk (c2Text F XS X Y YS DS)))]] =
      [[("text", JVal.s (String.mk (c2Text F XS X Y YS DS))),
        ("player", JVal.s (String.mk (Y :: '.' :: ' ' :: YS)))]] := by
    unfold extractTouchdowns
    simp [hcondT, hann]
  have hInts : extractInterceptions
      [[("text", JVal.s (String.mk (c2Text F XS X Y YS DS)))]] = [] := by
    unfold extractInterceptions
    simp [hcondI]
  have hPasser : extractPasserFromText
      (textOf [("text", JVal.s (String.mk (c2Text F XS X Y YS DS))),
               ("player", JVal.s (String.mk (Y :: '.' :: ' ' :: YS)))]) =
      some (String.mk (X :: '.' :: XS)) := by
    show extractPasserFromText (String.mk (c2Text F XS X Y YS DS)) =
      some (String.mk (X :: '.' :: XS))
    rw [congrArg String.mk (c2Text_passer_split F XS YS DS X Y)]
    exact c2_passer F XS (" to ".data ++ (Y :: '.' :: ' ' ::
      (YS ++ " for ".data ++ DS ++ " yard ".data ++ "touchdown".data))) X hX hXSne hXS hF
  have hYards : extractYardsFromText
      (lowStr (textOf [("text", JVal.s (String.mk (c2Text F XS X Y YS DS))),
                       ("player", JVal.s (String.mk (Y :: '.' :: ' ' :: YS)))])) =
      digitsToNat DS := by
    show extractYardsFromText (lowStr (String.mk (c2Text F XS X Y YS DS))) = digitsToNat DS
    exact c2_yards F XS YS DS X Y hDSne hDS hNoDig
  have hpassS : hasSubStr "pass"
      (lowStr (textOf [("text", JVal.s (String.mk (c2Text F XS X Y YS DS))),
                       ("player", JVal.s (String.mk (Y :: '.' :: ' ' :: YS)))])) = true := by
    show hasSub passL (lowL (c2Text F XS X Y YS DS)) = true
    exact c2_has_pass F XS YS DS X Y
  have htoS : hasSubStr "to"
      (lowStr (textOf [("text", JVal.s (String.mk (c2Text F XS X Y YS DS))),
                       ("player", JVal.s (String.mk (Y :: '.' :: ' ' :: YS)))])) = true := by
    show hasSub toL (lowL (c2Text F XS X Y YS DS)) = true
    exact c2_has_to F XS YS DS X Y
  rw [process_single_play, Option.map_some']
  refine congrArg some ?_
  unfold extractPlayerStatsFromComprehensive
  rw [show (singleComp (String.mk (c2Text F XS X Y YS DS))
        "2025-08-09_401_play_by_play" "ts").play_by_play.touchdowns =
      extractTouchdowns [[("text", JVal.s (String.mk (c2Text F XS X Y YS DS)))]] from rfl]
  rw [show (singleComp (String.mk (c2Text F XS X Y YS DS))
        "2025-08-09_401_play_by_play" "ts").play_by_play.interceptions =
      extractInterceptions [[("text", JVal.s (String.mk (c2Text F XS X Y YS DS)))]] from rfl]
  rw [hTds, hInts]
  rw [List.foldl_cons, List.foldl_nil]
  rw [stepTd_fresh _ _ _ _ hp hRne (List.not_mem_nil _)]
  dsimp only
  rw [appendStats_empty_left]
  rw [emitTd_pass _ _ _ hp hRne hpassS htoS]
  rw [hPasser]
  dsimp only
  rw [hYards]
  rw [show extractTeamFromPlay
        [("text", JVal.s (String.mk (c2Text F XS X Y YS DS))),
         ("player", JVal.s (String.mk (Y :: '.' :: ' ' :: YS)))]
        (singleComp (String.mk (c2Text F XS X Y YS DS))
          "2025-08-09_401_play_by_play" "ts") = "Unknown Team" from rfl]
  simp [emptyStats, defItemsOf]

/-! Claim theorems. -/

/-- C1 counterexample: the same raw record and file stem processed at two
different wall-clock instants give different comprehensive records, because
processing_timestamp records datetime.now(); the claimed run-to-run
identity fails. -/
theorem c1_counterexample :
    processPlayByPlayFile c1Raw "2025-08-09_401_play_by_play" "2025-08-30T10:00:00" ≠
      processPlayByPlayFile c1Raw "2025-08-09_401_play_by_play" "2025-08-30T10:00:01" := by
  decide

/-- C1 (amended): apart from the processing_timestamp field, the
comprehensive record produced by process_play_by_play_file is a pure
function of the raw record and the source file stem: whatever wall-clock
readings two runs observe, the records agree once that field is blanked. -/
theorem c1_pure_after_clearTimestamp (rg : RawGame) (stem t1 t2 : String) :
    (processPlayByPlayFile rg stem t1).map clearTimestamp =
      (processPlayByPlayFile rg stem t2).map clearTimestamp := by
  unfold processPlayByPlayFile
  by_cases h : rg.game_info.game_id = ""
  · simp [h]
  · simp [h, clearTimestamp]

/-- C1 witness: the amended statement applied to the concrete fixture. -/
theorem c1_pure_after_clearTimestamp_witness :
    (processPlayByPlayFile c1Raw "2025-08-09_401_play_by_play" "a").map clearTimestamp =
      (processPlayByPlayFile c1Raw "2025-08-09_401_play_by_play" "b").map clearTimestamp :=
  c1_pure_after_clearTimestamp c1Raw "2025-08-09_401_play_by_play" "a" "b"

/-- C2 counterexample: for a play written exactly in the claimed form
"(Formation) X. Name pass to Y. Name for N yard touchdown" (with a space
after the passer's initial period), the touchdown is attributed to the
receiver as claimed, but the passer pattern — which has no \s* between the
period and the surname — fails, so no passing line item is produced;
the claimed passing/receiving pair does not appear. -/
theorem c2_counterexample :
    extractPlayerFromPlayText c2SpacedText "touchdown" = some "T. Kelce" ∧
    extractPasserFromText c2SpacedText = none ∧
    (processPlayByPlayFile (rawWithPlay c2SpacedText)
        "2025-08-09_401_play_by_play" "ts").map extractPlayerStatsFromComprehensive =
      some { passing := []
             rushing := []
             receiving := [recvLineItem "Unknown Team" "T. Kelce" 12]
             defensive := [] } := by
  refine ⟨by decide, by decide, by decide⟩

/-- C2 (amended): for a raw record with a play of the form
"(Formation) X.Name pass to Y. Name for N yard touchdown" — the passer
written without a space after the initial period, as the case-sensitive
passer pattern requires — where the formation is letters and spaces, the
name parts are letters, N is a digit string, no earlier position matches
"pass", the text contains no "intercept", and no digits precede the
yardage: the Event Extractor attaches player "Y. Name" to the touchdown,
and the Weekly Aggregator emits exactly one passing line item for
"X.Name" and one receiving line item for "Y. Name", both with yards = N. -/
theorem c2_pass_td_pipeline (F XS YS DS : List Char) (X Y : Char)
    (hX : isUpperA X = true) (hY : isAlphaA Y = true)
    (hXSne : XS ≠ []) (hXS : ∀ x ∈ XS, isAlphaA x = true)
    (hYSne : YS ≠ []) (hYS : ∀ x ∈ YS, isAlphaA x = true)
    (hDSne : DS ≠ []) (hDS : ∀ x ∈ DS, isDigitA x = true)
    (hF : ∀ x ∈ F, isAlphaA x = true ∨ x = ' ')
    (hNoPass : noHitIn (stripKwCI passL) (c2Pre F XS X) (c2Suf Y YS DS) = true)
    (hNoInt : hasSub interceptL (lowL (c2Text F XS X Y YS DS)) = false)
    (hNoDig : noHitIn yardsAtt (lowL (lowL (c2YPre F XS X Y YS)))
      (DS ++ (" yard ".data ++ touchdownL)) = true) :
    extractPlayerFromPlayText (String.mk (c2Text F XS X Y YS DS)) "touchdown" =
      some (String.mk (Y :: '.' :: ' ' :: YS)) ∧
    (processPlayByPlayFile (rawWithPlay (String.mk (c2Text F XS X Y YS DS)))
        "2025-08-09_401_play_by_play" "ts").map extractPlayerStatsFromComprehensive =
      some { passing := [passLineItem "Unknown Team" (String.mk (X :: '.' :: XS))
               (digitsToNat DS)]
             rushing := []
             receiving := [recvLineItem "Unknown Team" (String.mk (Y :: '.' :: ' ' :: YS))
               (digitsToNat DS)]
             defensive := [] } :=
  ⟨c2_extractor F XS YS DS X Y hY hYSne hYS hNoPass,
   c2_stats F XS YS DS X Y hX hY hXSne hXS hYSne hYS hDSne hDS hF hNoPass hNoInt hNoDig⟩

/-- C2 witness: the amended statement applied to the concrete play
"(Shotgun) P.Mahomes pass to T. Kelce for 12 yard touchdown". -/
theorem c2_pass_td_pipeline_witness :
    extractPlayerFromPlayText
      (String.mk (c2Text "Shotgun".data "Mahomes".data 'P' 'T' "Kelce".data "12".data))
      "touchdown" = some (String.mk ('T' :: '.' :: ' ' :: "Kelce".data)) ∧
    (processPlayByPlayFile
        (rawWithPlay (String.mk
          (c2Text "Shotgun".data "Mahomes".data 'P' 'T' "Kelce".data "12".data)))
        "2025-08-09_401_play_by_play" "ts").map extractPlayerStatsFromComprehensive =
      some { passing := [passLineItem "Unknown Team"
               (String.mk ('P' :: '.' :: "Mahomes".data)) (digitsToNat "12".data)]
             rushing := []
             receiving := [recvLineItem "Unknown Team"
               (String.mk ('T' :: '.' :: ' ' :: "Kelce".data)) (digitsToNat "12".data)]
             defensive := [] } :=
  c2_pass_td_pipeline "Shotgun".data "Mahomes".data "Kelce".data "12".data 'P' 'T'
    (by decide) (by decide) (by decide) (by decide) (by decide) (by decide)
    (by decide) (by decide) (by decide) (by decide) (by decide) (by decide)

/-- C3 counterexample: a play that already carries a provider-supplied
'player' field has that field overwritten (not merely added) when the
touchdown extractor attaches its inferred name, so one original field is
not preserved. -/
theorem c3_counterexample :
    ∃ q, extractTouchdowns [c3Play] = [q] ∧
      getVal q "player" = some (.s "J. Smith") ∧
      getVal c3Play "player" = some (.s "Z. Other") := by
  refine ⟨_, rfl, ?_, ?_⟩ <;> decide

/-- C3 (amended): each derived event list, viewed with the 'player' binding
erased, is a subsequence of the original play list viewed the same way (no
reordering or deletion), and every derived element agrees with its source
play on every key other than 'player'; the 'player' binding itself may be
added or overwritten by the inferred name. -/
theorem c3_event_lists_embed (plays : List Play) :
    (List.Sublist ((extractTouchdowns plays).map erasePlayer) (plays.map erasePlayer) ∧
     List.Sublist ((extractInterceptions plays).map erasePlayer) (plays.map erasePlayer) ∧
     List.Sublist ((extractFumbles plays).map erasePlayer) (plays.map erasePlayer)) ∧
    ((∀ q ∈ extractTouchdowns plays,
        ∃ p ∈ plays, ∀ k, k ≠ "player" → getVal q k = getVal p k) ∧
     (∀ q ∈ extractInterceptions plays,
        ∃ p ∈ plays, ∀ k, k ≠ "player" → getVal q k = getVal p k) ∧
     (∀ q ∈ extractFumbles plays,
        ∃ p ∈ plays, ∀ k, k ≠ "player" → getVal q k = getVal p k)) := by
  refine ⟨⟨?_, ?_, ?_⟩, ?_, ?_, ?_⟩
  · exact derived_erased_sublist plays "touchdown" _
  · exact derived_erased_sublist plays "interception" _
  · exact derived_erased_sublist plays "fumble" _
  · exact fun q hq => derived_mem_preserves plays "touchdown" _ q hq
  · exact fun q hq => derived_mem_preserves plays "interception" _ q hq
  · exact fun q hq => derived_mem_preserves plays "fumble" _ q hq

/-- C3 witness: the amended statement applied to a concrete play list. -/
theorem c3_event_lists_embed_witness :
    List.Sublist ((extractTouchdowns [c3Play]).map erasePlayer)
      ([c3Play].map erasePlayer) :=
  (c3_event_lists_embed [c3Play]).1.1

/-- C4 counterexample: because the patterns run under re.IGNORECASE, the
class [A-Z] also matches a lower-case initial, so the extractor returns a
name whose initial is not a capital letter, contradicting the claimed
capital-initial shape. -/
theorem c4_counterexample :
    extractPlayerFromPlayText "j. smith touchdown" "touchdown" = some "j. smith" ∧
    specCapNameShape "j. smith" = false ∧ nameShape "j. smith" = true := by
  refine ⟨?_, ?_, ?_⟩ <;> decide

/-- C4 (amended): every name player-name inference returns has the shape
"initial period surname" with the initial a letter of either case (the
IGNORECASE patterns accept both), trimmed and whitespace-normalised to at
most one interior space; and a touchdown-texted play for which no pattern
captures a name is still retained, unchanged, in the touchdowns list. -/
theorem c4_name_inference :
    (∀ t ty nm, extractPlayerFromPlayText t ty = some nm → nameShape nm = true) ∧
    (∀ (plays : List Play) (p : Play), p ∈ plays →
      hasSubStr "touchdown" (lowStr (textOf p)) = true →
      extractPlayerFromPlayText (textOf p) "touchdown" = none →
      p ∈ extractTouchdowns plays) := by
  constructor
  · exact fun t ty nm h => extract_name_shaped t ty nm h
  · intro plays p hp hcond hnone
    unfold extractTouchdowns
    refine List.mem_map.mpr ⟨p, List.mem_filter.mpr ⟨hp, hcond⟩, ?_⟩
    unfold annotatePlay
    rw [hnone]

/-- C4 witness: the amended statement applied at concrete inputs. -/
theorem c4_name_inference_witness :
    nameShape "T. Kelce" = true ∧
    [("text", JVal.s "no names here touchdown")] ∈
      extractTouchdowns [[("text", JVal.s "no names here touchdown")]] := by
  constructor
  · exact c4_name_inference.1
      "(Shotgun) P.Mahomes pass to T. Kelce for 12 yard touchdown" "touchdown"
      "T. Kelce" (by decide)
  · exact c4_name_inference.2 [[("text", JVal.s "no names here touchdown")]]
      [("text", JVal.s "no names here touchdown")] (by decide) (by decide) (by decide)

/-- C5: for a fresh touchdown event whose lower-cased text contains both
"pass" and "to", the pair of line items (one passing for the derived
passer, one receiving for the attached player) is emitted exactly when the
dedicated passer pattern finds a passer in the original-cased text, with
the stated fields and the same parsed yardage in both; when no passer is
found, no passing line item is emitted (the receiving item alone appears). -/
theorem c5_pass_split (c : Comprehensive) (st : TDState) (td : Play) (nm : String)
    (hp : playerOf td = some nm) (hne : nm ≠ "") (hfresh : nm ∉ st.processedPlayers)
    (hpass : hasSubStr "pass" (lowStr (textOf td)) = true)
    (hto : hasSubStr "to" (lowStr (textOf td)) = true) :
    ((∃ p, extractPasserFromText (textOf td) = some p) ↔
      ((stepTd c st td).stats.passing ≠ st.stats.passing ∧
       (stepTd c st td).stats.receiving ≠ st.stats.receiving)) ∧
    (∀ p, extractPasserFromText (textOf td) = some p →
      (stepTd c st td).stats.passing = st.stats.passing ++
        [passLineItem (extractTeamFromPlay td c) p
          (extractYardsFromText (lowStr (textOf td)))] ∧
      (stepTd c st td).stats.receiving = st.stats.receiving ++
        [recvLineItem (extractTeamFromPlay td c) nm
          (extractYardsFromText (lowStr (textOf td)))]) ∧
    (extractPasserFromText (textOf td) = none →
      (stepTd c st td).stats.passing = st.stats.passing ∧
      (stepTd c st td).stats.receiving = st.stats.receiving ++
        [recvLineItem (extractTeamFromPlay td c) nm
          (extractYardsFromText (lowStr (textOf td)))]) := by
  have hstep := stepTd_fresh c st td nm hp hne hfresh
  have hemit := emitTd_pass c td nm hp hne hpass hto
  rw [hstep]
  cases hps : extractPasserFromText (textOf td) with
  | some p =>
    rw [hps] at hemit
    dsimp only at hemit
    refine ⟨⟨fun _ => ⟨?_, ?_⟩, fun _ => ⟨p, rfl⟩⟩, ?_, ?_⟩
    · rw [hemit]
      simp [appendStats, emptyStats]
    · rw [hemit]
      simp [appendStats, emptyStats]
    · intro p' hp'
      obtain rfl : p = p' := by simpa using hp'
      rw [hemit]
      simp [appendStats, emptyStats]
    · intro hcontra
      simp at hcontra
  | none =>
    rw [hps] at hemit
    dsimp only at hemit
    refine ⟨⟨fun hex => ?_, fun hne2 => ?_⟩, ?_, ?_⟩
    · obtain ⟨p, hp'⟩ := hex
      simp at hp'
    · exfalso
      apply hne2.1
      rw [hemit]
      simp [appendStats, emptyStats]
    · intro p' hp'
      simp at hp'
    · intro _
      rw [hemit]
      constructor
      · simp [appendStats, emptyStats]
      · simp [appendStats, emptyStats]

/-- C5 witness: the per-event split applied to a concrete pass touchdown. -/
theorem c5_pass_split_witness :
    (stepTd (fixComp [c5Td] []) { stats := emptyStats, processedPlayers := [] }
        c5Td).stats.passing = [passLineItem "Unknown Team" "A.Buck" 7] := by
  have h := (c5_pass_split (fixComp [c5Td] [])
    { stats := emptyStats, processedPlayers := [] } c5Td "B. Cee"
    (by decide) (by decide) (by simp) (by decide) (by decide)).2.1 "A.Buck" (by decide)
  rw [h.1]
  decide

/-- C6 counterexample: a touchdown event that emits no line item still
marks its player processed, so the same player's later rushing touchdown
is suppressed although that name had produced no line item yet; the second
event alone does emit the rushing line item. -/
theorem c6_counterexample :
    (extractPlayerStatsFromComprehensive (fixComp [c6Td1, c6Td2] [])).rushing = [] ∧
    (extractPlayerStatsFromComprehensive (fixComp [c6Td2] [])).rushing =
      [rushLineItem "Unknown Team" "A. Smith" 5] := by
  constructor <;> decide

/-- C6 (amended): a touchdown event is skipped exactly when its attached
player name already appeared as the attached player of an earlier
non-skipped event of the same pass, whether or not that event emitted any
line item: the extraction result equals the concatenated emissions of the
first-occurrence events, with interception items appended to the
defensive list. -/
theorem c6_dedup_marks_processed (c : Comprehensive) :
    extractPlayerStatsFromComprehensive c =
      { statsConcat c (keptTds [] c.play_by_play.touchdowns) with
        defensive := (statsConcat c (keptTds [] c.play_by_play.touchdowns)).defensive ++
          defItemsOf c c.play_by_play.interceptions } :=
  extract_stats_chars c

/-- C7: week resolution returns some week exactly when one of the
configured inclusive [start_date, end_date] ranges contains the parsed
date (so an exact boundary date resolves to its range's week), returns no
week exactly when every configured range excludes the date, and every game
summary filed under a week comes from a file whose date resolved to that
week — a game with no week is never filed anywhere. -/
theorem c7_week_resolution :
    (∀ (s : String) (d : Nat × Nat × Nat) (w : Nat), parseDate s = some d →
      (getWeekForDate s = some (some w) ↔
        ∃ st en, (w, st, en) ∈ weekRanges ∧ inRangeB d (w, st, en) = true)) ∧
    (∀ (s : String) (d : Nat × Nat × Nat), parseDate s = some d →
      (getWeekForDate s = some none ↔
        ∀ w st en, (w, st, en) ∈ weekRanges → inRangeB d (w, st, en) = false)) ∧
    (∀ (files : List CompFile) (w : Nat) (g : GameOut),
      g ∈ gamesAll (aggregateByWeeks true files) w →
      ∃ f ∈ files, ∃ data, f.content = some data ∧
        getWeekForDate (firstUnderscoreField f.filename) = some (some w) ∧
        g = extractGameInfo data f.filename) := by
  refine ⟨?_, ?_, ?_⟩
  · intro s d w hd
    unfold getWeekForDate
    rw [hd]
    simp only [Option.map_some', Option.some.injEq]
    constructor
    · intro h
      obtain ⟨⟨w1, st, en⟩, hfind, hw⟩ := Option.map_eq_some'.mp h
      obtain rfl : w1 = w := hw
      exact ⟨st, en, List.mem_of_find?_eq_some hfind, List.find?_some hfind⟩
    · rintro ⟨st, en, hmem, hc⟩
      exact Option.some.injEq .. ▸ weekFind_of_mem d w st en hmem hc
  · intro s d hd
    unfold getWeekForDate
    rw [hd]
    simp only [Option.map_some', Option.some.injEq, Option.map_eq_none',
      List.find?_eq_none]
    constructor
    · intro h w st en hmem
      have := h (w, st, en) hmem
      simpa using this
    · intro h wr hmem
      obtain ⟨w, st, en⟩ := wr
      simp [h w st en hmem]
  · intro files w g hg
    unfold aggregateByWeeks at hg
    rw [if_pos rfl] at hg
    rcases gamesAll_foldl_mem _ _ _ _ hg with h1 | ⟨f, hf, rest⟩
    · simp [gamesAll] at h1
    · exact ⟨f, (mem_sortByName _ _ _).mp hf, rest⟩

/-- C7 witness: the boundary date 2025-08-12 resolves to week 2 and
2025-09-01, one day outside every range, resolves to no week. -/
theorem c7_week_resolution_witness :
    getWeekForDate "2025-08-12" = some (some 2) ∧
    getWeekForDate "2025-09-01" = some none := by
  constructor
  · exact (c7_week_resolution.1 "2025-08-12" (2025, 8, 12) 2 (by decide)).mpr
      ⟨"2025-08-12", "2025-08-18", by decide, by decide⟩
  · refine (c7_week_resolution.2.1 "2025-09-01" (2025, 9, 1) (by decide)).mpr ?_
    intro w st en hmem
    fin_cases hmem <;> decide

/-- C8 counterexample: with the all flag selected, a matching source file
whose existing comprehensive output is newer is still skipped — nothing is
processed — so the all flag does not force a full pass past the freshness
gate. -/
theorem c8_counterexample :
    matchesGlob (mainDatePattern true none) c8Src.name = true ∧
    c8Src ∈ c8FS.srcs ∧
    (processRecentFiles c8FS (mainDatePattern true none) 30).processed = 0 ∧
    (processRecentFiles c8FS (mainDatePattern true none) 30).processedNames = [] := by
  exact ⟨by decide, by decide, by decide, by decide⟩

/-- C8 (amended): the all flag only clears the date-prefix filter (a run
with the flag equals a run with no pattern); the freshness gate still
applies: a matched file with a strictly newer comprehensive output is
skipped entirely, while a matched file without one is processed or counted
failed (under distinct source and output names). -/
theorem c8_all_flag :
    (∀ (fs : FState) (dp : Option String) (tW : Nat),
      processRecentFiles fs (mainDatePattern true dp) tW = processRecentFiles fs none tW) ∧
    (∀ (fs : FState) (tW : Nat) (f : SrcFile) (cm : Nat),
      f ∈ fs.srcs →
      (fs.srcs.map (fun g => g.name)).Nodup →
      (fs.srcs.map (fun g => compNameOf g.name)).Nodup →
      matchesGlob none f.name = true →
      lookupM fs.comps (compNameOf f.name) = some cm →
      f.mtime < cm →
      f.name ∉ (processRecentFiles fs (mainDatePattern true none) tW).processedNames ∧
      f.name ∉ (processRecentFiles fs (mainDatePattern true none) tW).failedNames) ∧
    (∀ (fs : FState) (tW : Nat) (f : SrcFile),
      f ∈ fs.srcs →
      (fs.srcs.map (fun g => g.name)).Nodup →
      (fs.srcs.map (fun g => compNameOf g.name)).Nodup →
      matchesGlob none f.name = true →
      (∀ cm, lookupM fs.comps (compNameOf f.name) = some cm → ¬ f.mtime < cm) →
      f.name ∈ (processRecentFiles fs (mainDatePattern true none) tW).processedNames ∨
      f.name ∈ (processRecentFiles fs (mainDatePattern true none) tW).failedNames) := by
  refine ⟨fun fs dp tW => rfl, ?_, ?_⟩
  · intro fs tW f cm hf hN hC hg hcm hlt
    exact (freshGate_decides fs none tW f hf hN hC hg).1 ⟨cm, hcm, hlt⟩
  · intro fs tW f hf hN hC hg hfresh
    exact (freshGate_decides fs none tW f hf hN hC hg).2 hfresh

/-- C8 witness: the amended statement applied to the stale fixture. -/
theorem c8_all_flag_witness :
    c8Src.name ∉ (processRecentFiles c8FS (mainDatePattern true none) 30).processedNames ∧
    c8Src.name ∉ (processRecentFiles c8FS (mainDatePattern true none) 30).failedNames :=
  c8_all_flag.2.1 c8FS 30 c8Src 20 (by decide) (by decide) (by decide) (by decide)
    (by decide) (by decide)

/-- C9: the Event Extractor's CLI exits non-zero iff at least one matched,
non-skipped file failed to process, and the Weekly Aggregator's CLI exits
non-zero iff no weekly rollup file was written. -/
theorem c9_exit_codes :
    (∀ (fs : FState) (aAll : Bool) (aDate : Option String) (tW : Nat),
      extractorExitCode fs aAll aDate tW ≠ 0 ↔
        (processRecentFiles fs (mainDatePattern aAll aDate) tW).failedNames ≠ []) ∧
    (∀ (dirE : Bool) (files : List CompFile),
      aggregatorExitCode dirE files ≠ 0 ↔ writtenWeekFiles dirE files = []) := by
  constructor
  · intro fs aAll aDate tW
    have hc : (runAccOf fs (mainDatePattern aAll aDate) tW).failedCount =
        (runAccOf fs (mainDatePattern aAll aDate) tW).failedNames.length :=
      (foldl_runStep_counts tW (matchedFiles fs (mainDatePattern aAll aDate))
        (initAcc fs) rfl rfl).1
    by_cases h0 : (runAccOf fs (mainDatePattern aAll aDate) tW).failedNames = []
    · have hz : (runAccOf fs (mainDatePattern aAll aDate) tW).failedCount = 0 := by
        rw [hc, h0]
        rfl
      simp [extractorExitCode, processRecentFiles, hz, h0]
    · have hpos : 0 < (runAccOf fs (mainDatePattern aAll aDate) tW).failedCount := by
        rw [hc]
        exact List.length_pos.mpr h0
      simp [extractorExitCode, processRecentFiles, hpos, h0]
  · intro dirE files
    cases dirE
    · simp [aggregatorExitCode, aggregateByWeeksOk, writtenWeekFiles, aggregateByWeeks]
    · unfold aggregatorExitCode aggregateByWeeksOk writtenWeekFiles
      by_cases h0 : aggregateByWeeks true files = []
      · simp [h0]
      · have hpos : 0 < (aggregateByWeeks true files).length := List.length_pos.mpr h0
        simp [hpos, h0]

/-- C9 witness: with a missing comprehensive directory nothing is written
and the Weekly Aggregator exits non-zero. -/
theorem c9_exit_codes_witness : aggregatorExitCode false [] ≠ 0 :=
  (c9_exit_codes.2 false []).mpr (by decide)

/-- C10: with exactly two teams, neither flagged home or away, the display
name presents the first-listed team as the away side ("FIRST @ SECOND"),
while the returned home_team descriptor is that same first-listed team and
the away_team descriptor is the second — the name and the descriptors
disagree about which side is home. -/
theorem c10_home_away_mismatch (c : Comprehensive) (fn a1 a2 : String) (s1 s2 : TeamStat)
    (h : c.box_score.team_stats = [(a1, s1), (a2, s2)])
    (h1h : s1.home_away ≠ "home") (h1a : s1.home_away ≠ "away")
    (h2h : s2.home_away ≠ "home") (h2a : s2.home_away ≠ "away")
    (hsc : ¬((statusFields c.box_score.game_info.status).2 = true ∧
      (0 < s1.score ∨ 0 < s2.score))) :
    (extractGameInfo c fn).name = a1 ++ " @ " ++ a2 ∧
    (extractGameInfo c fn).home_team =
      some { name := a1, abbreviation := a1, score := s1.score, home_away := s1.home_away } ∧
    (extractGameInfo c fn).away_team =
      some { name := a2, abbreviation := a2, score := s2.score, home_away := s2.home_away } := by
  unfold extractGameInfo
  rw [h]
  simp only [List.map_cons, List.map_nil]
  have hfa : (([{ name := a1, abbreviation := a1, score := s1.score, home_away := s1.home_away },
      { name := a2, abbreviation := a2, score := s2.score, home_away := s2.home_away }] :
      List TeamOut).find? (fun t => t.home_away = "away")) = none := by
    rw [List.find?_cons_of_neg _ (by simp [h1a]), List.find?_cons_of_neg _ (by simp [h2a])]
    rfl
  have hfh : (([{ name := a1, abbreviation := a1, score := s1.score, home_away := s1.home_away },
      { name := a2, abbreviation := a2, score := s2.score, home_away := s2.home_away }] :
      List TeamOut).find? (fun t => t.home_away = "home")) = none := by
    rw [List.find?_cons_of_neg _ (by simp [h1h]), List.find?_cons_of_neg _ (by simp [h2h])]
    rfl
  rw [hfa, hfh]
  have hcond : ¬((statusFields c.box_score.game_info.status).2 = true ∧
      (0 < ({ name := a1, abbreviation := a1, score := s1.score,
              home_away := s1.home_away } : TeamOut).score ∨
       0 < ({ name := a2, abbreviation := a2, score := s2.score,
              home_away := s2.home_away } : TeamOut).score)) := by
    simpa using hsc
  simp [hcond]

/-- C10 witness: the mismatch realised on a concrete two-team record. -/
theorem c10_home_away_mismatch_witness :
    (extractGameInfo c10Comp "f").name = "DAL @ NYG" ∧
    (extractGameInfo c10Comp "f").home_team =
      some { name := "DAL", abbreviation := "DAL", score := 0, home_away := "unknown" } := by
  have h := c10_home_away_mismatch c10Comp "f" "DAL" "NYG"
    { score := 0, record := "0-0", home_away := "unknown" }
    { score := 0, record := "0-0", home_away := "unknown" }
    rfl (by decide) (by decide) (by decide) (by decide) (by decide)
  exact ⟨h.1, h.2.1⟩

end FootballData
